import Mathlib

/-!
Shallow embedding of the grid/selection/history core of the csv-app
spreadsheet editor (src/main.rs).  Cell text is modelled as `List Char`
(Rust `String`), the grid as `List (List Str)` (Rust `Vec<Vec<String>>`),
and the application session as the structure `AppState` holding exactly
the fields of `SpreadsheetApp` that the core operations read or write.
Rust `Vec` push/pop act on the end of the Lean list, `remove(0)` is
`List.tail`.  UI-only fields (column widths, theme, dialogs, file path)
are not modelled; no core operation's grid behaviour depends on them.
-/

namespace CsvApp

abbrev Str := List Char

def tabC : Char := '\t'
def nlC : Char := '\n'
def crC : Char := '\r'

/-- Split a character list at every occurrence of `c`; mirrors Rust
`str::split(c)`: always returns at least one (possibly empty) piece. -/
def splitOnChar (c : Char) : Str → List Str
  | [] => [[]]
  | x :: xs =>
    let r := splitOnChar c xs
    if x = c then [] :: r
    else (x :: r.headI) :: r.tail

/-- Join pieces with a single separator character; mirrors Rust
`[String]::join(sep)` for a one-character separator. -/
def joinSep (c : Char) : List Str → Str
  | [] => []
  | [p] => p
  | p :: q :: ps => p ++ c :: joinSep c (q :: ps)

/-- Drop one trailing carriage return, as Rust `str::lines` does for a
line that was terminated by `"\r\n"`. -/
def stripTrailCR (l : Str) : Str :=
  if l.getLast? = some crC then l.dropLast else l

/-- Rust `str::lines`: split at `'\n'`, strip a trailing `'\r'` from every
piece that was actually followed by a `'\n'`, and drop a final empty
piece (a trailing line terminator produces no extra line). -/
def rustLines (s : Str) : List Str :=
  let parts := splitOnChar nlC s
  parts.dropLast.map stripTrailCR ++
    (match parts.getLast? with
     | some (a :: rest) => [a :: rest]
     | _ => [])

/-- Byte-wise lexicographic comparison of Rust `&str` (UTF-8 byte order
coincides with code-point order, which is the `Char` order). -/
def lexCmp : Str → Str → Ordering
  | [], [] => .eq
  | [], _ :: _ => .lt
  | _ :: _, [] => .gt
  | a :: as, b :: bs =>
    if a = b then lexCmp as bs
    else if a < b then .lt else .gt

/-- String literal helper. -/
def strL (s : String) : Str := s.toList

/-- A Rust `f64` as far as parsing and `partial_cmp` observe it: NaN, a
signed infinity, or a finite value `m * 2 ^ e` held as an exact
significand/exponent pair.  Values produced by `parseNum` are the
correctly rounded binary64 results, so distinct decimal spellings that
round to the same double receive equal values here, exactly as in the
program.  The two IEEE zeros are conflated into `finite 0 _`, which is
faithful for `partial_cmp` (`-0.0 == 0.0`). -/
inductive F64 where
  | nan
  | inf (neg : Bool)
  | finite (m : Int) (e : Int)
  deriving Repr, DecidableEq

/-- The exact rational value of a finite double `m * 2 ^ e`. -/
def F64.finVal (m e : Int) : ℚ := (m : ℚ) * (2 : ℚ) ^ e

/-- Compare two finite doubles by bringing them to the common power of
two; agrees with comparison of the exact values. -/
def F64.cmpFin (m1 e1 m2 e2 : Int) : Ordering :=
  let e := min e1 e2
  let x := m1 * (2 : Int) ^ (e1 - e).toNat
  let y := m2 * (2 : Int) ^ (e2 - e).toNat
  if x = y then .eq else if x < y then .lt else .gt

/-- Rust `f64::partial_cmp`: `None` when either operand is NaN, the
usual order on infinities and finite values otherwise. -/
def F64.pcmp : F64 → F64 → Option Ordering
  | .nan, _ => none
  | _, .nan => none
  | .inf s1, .inf s2 => some (if s1 = s2 then .eq else if s1 then .lt else .gt)
  | .inf s1, .finite _ _ => some (if s1 then .lt else .gt)
  | .finite _ _, .inf s2 => some (if s2 then .gt else .lt)
  | .finite m1 e1, .finite m2 e2 => some (F64.cmpFin m1 e1 m2 e2)

/-- Apply the parsed sign to a rounded magnitude (the sign of a NaN is
not observable through `partial_cmp`). -/
def F64.applySign (neg : Bool) : F64 → F64
  | .finite m e => .finite (if neg then -m else m) e
  | .inf _ => .inf neg
  | .nan => .nan

/-- Round `p / q` (`p ≥ 0`, `q > 0`) to the nearest integer, ties to
even. -/
def rhePair (p q : Int) : Int :=
  let n := p / q
  let r := p % q
  if 2 * r < q then n
  else if q < 2 * r then n + 1
  else if n % 2 = 0 then n else n + 1

/-- `Nat.log2` by structural recursion on a fuel bound (`fuel = n`
suffices since the argument halves each step), so that it reduces in the
kernel. -/
def log2Fuel : Nat → Nat → Nat
  | 0, _ => 0
  | fuel + 1, n => if 2 ≤ n then log2Fuel fuel (n / 2) + 1 else 0

def natLog2 (n : Nat) : Nat := log2Fuel n n

/-- Floor of the base-2 logarithm of `p / q` (`p, q > 0`): the bit
lengths of numerator and denominator give it up to one, and a single
scaled comparison corrects the off-by-one (`p / q < 2 ^ e0` iff
`p * 2 ^ max(-e0,0) < q * 2 ^ max(e0,0)`). -/
def ilog2Pair (p q : Int) : Int :=
  let e0 : Int := (natLog2 p.natAbs : Int) - (natLog2 q.natAbs : Int)
  if p * (2 : Int) ^ (-e0).toNat < q * (2 : Int) ^ e0.toNat then e0 - 1 else e0

/-- Correctly round the positive rational `p / q` to binary64
(round-to-nearest, ties to even): scale into the 53-bit binade — the
exponent clamped at -1074 gives gradual underflow to subnormals and to
zero — round the significand half-to-even, and overflow to infinity at
`2 ^ 1024`.  The rounded significand is at most `2 ^ 53`, so overflow is
possible only when the exponent reaches 971; the guard keeps the
power of two in the overflow test small. -/
def roundPosF64 (p q : Int) : F64 :=
  let e := max (ilog2Pair p q - 52) (-1074)
  let m := rhePair (p * (2 : Int) ^ (-e).toNat) (q * (2 : Int) ^ e.toNat)
  if e < 971 then .finite m e
  else if (2 : Int) ^ (1024 - e).toNat ≤ m then .inf false
  else .finite m e

def digitsToNat (l : Str) : Nat :=
  l.foldl (fun acc c => acc * 10 + (c.toNat - '0'.toNat)) 0

/-- Rust `str::parse::<f64>()`: an optional sign, then `inf`, `infinity`
or `nan` compared ASCII-case-insensitively (as Rust matches the special
values; `Char.toLower` lowercases exactly the ASCII letters), otherwise
the decimal grammar
`Digit+ ('.' Digit*)? | Digit* '.' Digit+` with an optional
`('e'|'E') Sign? Digit+` exponent.  The exact decimal value
`mant * 10 ^ exp10` is correctly rounded to binary64 (round-to-nearest,
ties to even, with subnormals, underflow to zero and overflow to
infinity), so two decimals compare equal here exactly when Rust's parse
maps them to the same double. -/
def parseNum (s : Str) : Option F64 :=
  let signRest : Bool × Str :=
    match s with
    | '+' :: r => (false, r)
    | '-' :: r => (true, r)
    | r => (false, r)
  let neg := signRest.1
  let rest := signRest.2
  let restLower := rest.map Char.toLower
  if restLower = strL "inf" ∨ restLower = strL "infinity" then
    some (.inf neg)
  else if restLower = strL "nan" then some .nan
  else
  let intPart := rest.takeWhile Char.isDigit
  let rest1 := rest.dropWhile Char.isDigit
  let fracRest : Str × Str :=
    match rest1 with
    | '.' :: r => (r.takeWhile Char.isDigit, r.dropWhile Char.isDigit)
    | r => ([], r)
  let fracPart := fracRest.1
  let rest2 := fracRest.2
  let expParsed : Bool × Int × Str :=
    match rest2 with
    | 'e' :: r | 'E' :: r =>
      let esignRest : Int × Str :=
        match r with
        | '+' :: rr => (1, rr)
        | '-' :: rr => (-1, rr)
        | rr => (1, rr)
      let eds := esignRest.2.takeWhile Char.isDigit
      let er2 := esignRest.2.dropWhile Char.isDigit
      (!eds.isEmpty, esignRest.1 * (digitsToNat eds : Int), er2)
    | r => (true, 0, r)
  if intPart.isEmpty && fracPart.isEmpty then none
  else if !expParsed.1 then none
  else if !expParsed.2.2.isEmpty then none
  else
    let mant : Int := (digitsToNat intPart : Int) * (10 : Int) ^ fracPart.length
      + (digitsToNat fracPart : Int)
    let exp10 : Int := expParsed.2.1 - (fracPart.length : Int)
    if mant = 0 then some (.finite 0 0)
    else if 0 ≤ exp10 then
      some (F64.applySign neg (roundPosF64 (mant * (10 : Int) ^ exp10.toNat) 1))
    else
      some (F64.applySign neg (roundPosF64 mant ((10 : Int) ^ (-exp10).toNat)))

/-- The sort comparator of `sort_by_column`: when both cell texts parse
as doubles, `a_num.partial_cmp(&b_num).unwrap_or(Equal)` — so any
comparison involving NaN is `Equal`; byte-lexicographic comparison
otherwise. -/
def cmpVals (a b : Str) : Ordering :=
  match parseNum a, parseNum b with
  | some x, some y => (F64.pcmp x y).getD .eq
  | _, _ => lexCmp a b

/-- The selection model (Rust `enum Selection`). -/
inductive Selection where
  | noSel
  | cellRange (start stop : Nat × Nat)
  | colSel (c : Nat)
  | rowSel (r : Nat)
  deriving Repr, DecidableEq

/-- The session state: the fields of `SpreadsheetApp` read or written by
the core grid operations. -/
structure AppState where
  data : List (List Str)
  selection : Selection
  editing_cell : Option (Nat × Nat)
  undo_stack : List (List (List Str))
  redo_stack : List (List (List Str))
  has_unsaved_changes : Bool
  clipboard : Str
  search_query : Str
  search_case_sensitive : Bool
  search_results : List (Nat × Nat)
  current_search_result : Nat
  sorted_column : Option Nat
  sort_ascending : Bool
  freeze_top_row : Bool
  deriving Repr, DecidableEq

/-- `SpreadsheetApp::default()`: a 20-row by 10-column blank grid. -/
def initState : AppState where
  data := List.replicate 20 (List.replicate 10 ([] : Str))
  selection := .noSel
  editing_cell := none
  undo_stack := []
  redo_stack := []
  has_unsaved_changes := false
  clipboard := []
  search_query := []
  search_case_sensitive := false
  search_results := []
  current_search_result := 0
  sorted_column := none
  sort_ascending := true
  freeze_top_row := true

/-- Read cell `(r, c)`, giving empty text outside the grid's extent. -/
def readCell (data : List (List Str)) (r c : Nat) : Str :=
  (data.getD r []).getD c []

/-- `data.iter().map(|r| r.len()).max().unwrap_or(d)`. -/
def maxLenD (data : List (List Str)) (d : Nat) : Nat :=
  match data with
  | [] => d
  | _ => (data.map List.length).foldr Nat.max 0

/-- `normalize_data`: pad every row with empty cells up to the maximum
row length (Rust `row.resize(max_cols, String::new())`). -/
def normalize_data (data : List (List Str)) : List (List Str) :=
  let m := maxLenD data 0
  data.map (fun r => r ++ List.replicate (m - r.length) [])

/-- The cells of one extracted selection row: bound columns `minC..maxC`
of row `ri`, a column beyond the row's length read as empty text. -/
def selCells (data : List (List Str)) (ri minC maxC : Nat) : List Str :=
  (List.range' minC (maxC + 1 - minC)).map (fun ci => readCell data ri ci)

/-- The per-row lines of an extracted cell range: one tab-joined line
for each bound row `minR..maxR` that exists in the grid (the
`if row_idx < self.data.len()` guard skips absent rows). -/
def selLines (data : List (List Str)) (minR maxR minC maxC : Nat) : List Str :=
  ((List.range' minR (maxR + 1 - minR)).filter (fun ri => ri < data.length)).map
    (fun ri => joinSep tabC (selCells data ri minC maxC))

/-- `get_selection_as_text`: serialise the selection to tab/newline
text.  A bound row at or beyond the grid's row count is skipped; a
bound column beyond a row's length is emitted as empty text. -/
def get_selection_as_text (s : AppState) : Str :=
  match s.selection with
  | .noSel => []
  | .cellRange (r1, c1) (r2, c2) =>
    joinSep nlC (selLines s.data (min r1 r2) (max r1 r2) (min c1 c2) (max c1 c2))
  | .colSel c =>
    joinSep nlC (s.data.map (fun row => row.getD c []))
  | .rowSel r =>
    if r < s.data.length then joinSep tabC (s.data.getD r []) else []

/-- The paste anchor: `CellRange` start corner, `(r,0)` / `(0,c)` for a
whole row/column, `(0,0)` when nothing is selected. -/
def pasteAnchor : Selection → Nat × Nat
  | .cellRange st _ => st
  | .rowSel r => (r, 0)
  | .colSel c => (0, c)
  | .noSel => (0, 0)

/-- The `while col_idx >= row.len() { row.push("") }` growth followed by
`row[col_idx] = v`. -/
def setCellGrow (row : List Str) (c : Nat) (v : Str) : List Str :=
  (row ++ List.replicate (c + 1 - row.length) []).set c v

/-- Write the split cells of one pasted line left to right starting at
`startCol`, growing the row on demand. -/
def pasteCells (row : List Str) (startCol : Nat) : List Str → List Str
  | [] => row
  | v :: vs => pasteCells (setCellGrow row startCol v) (startCol + 1) vs

/-- The `while row_idx >= data.len() { data.push(vec!["" ; maxCols]) }`
growth. -/
def ensureRows (data : List (List Str)) (rowIdx maxCols : Nat) : List (List Str) :=
  data ++ List.replicate (rowIdx + 1 - data.length) (List.replicate maxCols [])

/-- The paste loop body over the lines of the pasted text. -/
def pasteLines (data : List (List Str)) (startRow startCol maxCols : Nat) :
    List Str → List (List Str)
  | [] => data
  | line :: rest =>
    let data1 := ensureRows data startRow maxCols
    let data2 := data1.set startRow
      (pasteCells (data1.getD startRow []) startCol (splitOnChar tabC line))
    pasteLines data2 (startRow + 1) startCol maxCols rest

/-- `paste_text`: split the text into lines and tab-separated cells,
write them from the anchor growing the grid on demand (new rows sized to
the pre-paste maximum row length, 10 for an empty grid), then
re-rectangularise with `normalize_data`. -/
def paste_text (t : Str) (s : AppState) : AppState :=
  let anchor := pasteAnchor s.selection
  let maxCols := maxLenD s.data 10
  { s with data := normalize_data (pasteLines s.data anchor.1 anchor.2 maxCols (rustLines t)) }

/-- `clear_selection`: empty the text of every existing cell contained
in the selection. -/
def clear_selection (s : AppState) : AppState :=
  match s.selection with
  | .noSel => s
  | .cellRange (r1, c1) (r2, c2) =>
    let minR := min r1 r2
    let maxR := max r1 r2
    let minC := min c1 c2
    let maxC := max c1 c2
    { s with data := s.data.mapIdx (fun ri row =>
        if minR ≤ ri ∧ ri ≤ maxR then
          row.mapIdx (fun ci cell => if minC ≤ ci ∧ ci ≤ maxC then [] else cell)
        else row) }
  | .colSel c =>
    { s with data := s.data.map (fun row => row.set c []) }
  | .rowSel r =>
    { s with data := s.data.set r ((s.data.getD r []).map (fun _ => [])) }

/-- `save_undo_state`: push a snapshot of the grid, clear the redo
stack, mark dirty, and evict the oldest entry (`remove(0)`) when the
stack exceeds 50 entries. -/
def save_undo_state (s : AppState) : AppState :=
  let u := s.undo_stack ++ [s.data]
  { s with
    undo_stack := if 50 < u.length then u.tail else u,
    redo_stack := [],
    has_unsaved_changes := true }

/-- `undo`: no-op on an empty undo stack; otherwise push the current
grid on the redo stack, restore the popped snapshot, mark dirty, clear
the sort indicator. -/
def undo (s : AppState) : AppState :=
  match s.undo_stack.getLast? with
  | none => s
  | some prev =>
    { s with
      undo_stack := s.undo_stack.dropLast,
      redo_stack := s.redo_stack ++ [s.data],
      data := prev,
      has_unsaved_changes := true,
      sorted_column := none }

/-- `redo`: symmetric to `undo`. -/
def redo (s : AppState) : AppState :=
  match s.redo_stack.getLast? with
  | none => s
  | some next =>
    { s with
      redo_stack := s.redo_stack.dropLast,
      undo_stack := s.undo_stack ++ [s.data],
      data := next,
      has_unsaved_changes := true,
      sorted_column := none }

/-- `cut_selection`: snapshot first; then, only when the extracted
selection text is non-empty, store it on the clipboard and clear the
selected cells. -/
def cut_selection (s : AppState) : AppState :=
  let s1 := save_undo_state s
  let t := get_selection_as_text s1
  if t = [] then s1
  else clear_selection { s1 with clipboard := t }

/-- `add_row`: append a row sized to the first row's length (10 when the
grid is empty). -/
def add_row (s : AppState) : AppState :=
  let cols := (s.data.head?.map List.length).getD 10
  { s with data := s.data ++ [List.replicate cols []], has_unsaved_changes := true }

/-- `add_column`: append one empty cell to every row (a single-cell row
when the grid is empty). -/
def add_column (s : AppState) : AppState :=
  if s.data.isEmpty then
    { s with data := [[[]]], has_unsaved_changes := true }
  else
    { s with data := s.data.map (fun row => row ++ [[]]), has_unsaved_changes := true }

/-- `insert_row_at`: insert a blank row at `row_idx`, shifting the
edited-cell index.  Rust `Vec::insert` panics for an index beyond the
length (the UI only produces in-range indices); `List.insertIdx` leaves
the list unchanged there, so the out-of-range case has no observable
end state in either reading. -/
def insert_row_at (row_idx : Nat) (s : AppState) : AppState :=
  let cols := (s.data.head?.map List.length).getD 10
  { s with
    data := s.data.insertIdx row_idx (List.replicate cols []),
    has_unsaved_changes := true,
    editing_cell := match s.editing_cell with
      | some (er, ec) => if row_idx ≤ er then some (er + 1, ec) else some (er, ec)
      | none => none }

/-- `insert_column_at`: insert a blank cell at `col_idx` in every row
(same `Vec::insert` panic caveat as `insert_row_at`). -/
def insert_column_at (col_idx : Nat) (s : AppState) : AppState :=
  if s.data.isEmpty then
    { s with data := [[[]]], has_unsaved_changes := true }
  else
    { s with
      data := s.data.map (fun row => row.insertIdx col_idx []),
      has_unsaved_changes := true,
      editing_cell := match s.editing_cell with
        | some (er, ec) => if col_idx ≤ ec then some (er, ec + 1) else some (er, ec)
        | none => none }

/-- `delete_row`: remove row `row_idx` when it exists, adjusting the
edited-cell index; a full no-op otherwise. -/
def delete_row (row_idx : Nat) (s : AppState) : AppState :=
  if row_idx < s.data.length then
    { s with
      data := s.data.eraseIdx row_idx,
      has_unsaved_changes := true,
      editing_cell := match s.editing_cell with
        | some (er, ec) =>
          if er = row_idx then none
          else if row_idx < er then some (er - 1, ec) else some (er, ec)
        | none => none }
  else s

/-- `delete_column`: remove the cell at `col_idx` from every row long
enough to have one; always marks dirty and adjusts the edited cell. -/
def delete_column (col_idx : Nat) (s : AppState) : AppState :=
  { s with
    data := s.data.map (fun row => if col_idx < row.length then row.eraseIdx col_idx else row),
    has_unsaved_changes := true,
    editing_cell := match s.editing_cell with
      | some (er, ec) =>
        if ec = col_idx then none
        else if col_idx < ec then some (er, ec - 1) else some (er, ec)
      | none => none }

/-- The row comparator of `sort_by_column` on sort column `col`: compare
the rows' cells at `col` (empty text for a short row) with `cmpVals`,
reversing the result when `ascending` is false. -/
def rowCmp (col : Nat) (ascending : Bool) (a b : List Str) : Ordering :=
  let c := cmpVals (a.getD col []) (b.getD col [])
  if ascending then c else c.swap

/-- The `sort_by` order relation: `a` may precede `b` unless the
comparator says `a` is strictly greater. -/
def sortRel (col : Nat) (ascending : Bool) (a b : List Str) : Prop :=
  rowCmp col ascending a b ≠ .gt

instance (col : Nat) (ascending : Bool) : DecidableRel (sortRel col ascending) :=
  fun _ _ => instDecidableNot

/-- `sort_by_column`: no-op on an empty grid; snapshot, then stably sort
either all rows or (frozen header) all rows but the first.  Rust's
stable `slice::sort_by` is modelled by `List.insertionSort`, which is
stable and, for a total transitive comparator, produces the same
(unique) stably sorted order. -/
def sort_by_column (col_idx : Nat) (ascending : Bool) (s : AppState) : AppState :=
  match s.data with
  | [] => s
  | hd :: tl =>
    let s1 := save_undo_state s
    let newData :=
      if s.freeze_top_row ∧ tl ≠ [] then
        hd :: List.insertionSort (sortRel col_idx ascending) tl
      else
        List.insertionSort (sortRel col_idx ascending) (hd :: tl)
    { s1 with
      data := newData,
      sorted_column := some col_idx,
      sort_ascending := ascending,
      has_unsaved_changes := true }

/-- Case folding used by search: identity when case sensitive, else
per-character lowercasing with `Char.toLower`, which lowercases exactly
the ASCII letters.  This is the ASCII fragment of Rust's
`String::to_lowercase`: on all-ASCII text the two agree character for
character (none of Unicode's additional simple mappings, its one-to-many
expansions, or the final-sigma context rule involves an ASCII
character), so the case-insensitive search theorems below carry ASCII
hypotheses delimiting that domain, while the case-sensitive branch —
where no folding happens — is characterised unconditionally. -/
def foldCase (caseSensitive : Bool) (s : Str) : Str :=
  if caseSensitive then s else s.map Char.toLower

/-- Every character of the string is ASCII (code point below 128): the
domain on which `foldCase`'s per-character `Char.toLower` coincides with
Rust's Unicode-aware `String::to_lowercase`. -/
def AsciiStr (s : Str) : Prop := ∀ ch ∈ s, ch.toNat < 128

instance (s : Str) : Decidable (AsciiStr s) := by
  unfold AsciiStr
  infer_instance

/-- `perform_search`: clear the results and reset the pointer; an empty
query stops there; otherwise collect, in row-major scan order, every
cell coordinate whose (case-folded) text contains the (case-folded)
query as a substring. -/
def perform_search (s : AppState) : AppState :=
  let s0 := { s with search_results := [], current_search_result := 0 }
  if s.search_query = [] then s0
  else
    let q := foldCase s.search_case_sensitive s.search_query
    { s0 with search_results :=
        (List.range s.data.length).flatMap (fun r =>
          (List.range (s.data.getD r []).length).filterMap (fun c =>
            if q <:+: foldCase s.search_case_sensitive (readCell s.data r c)
            then some (r, c) else none)) }

/-- `go_to_next_search_result`: advance the pointer cyclically and
select the result cell; no-op without results. -/
def go_to_next_search_result (s : AppState) : AppState :=
  if s.search_results = [] then s
  else
    let i := (s.current_search_result + 1) % s.search_results.length
    let rc := s.search_results.getD i (0, 0)
    { s with
      current_search_result := i,
      selection := .cellRange rc rc,
      editing_cell := none }

/-- `go_to_prev_search_result`: step the pointer back, wrapping from 0
to the last result; no-op without results. -/
def go_to_prev_search_result (s : AppState) : AppState :=
  if s.search_results = [] then s
  else
    let i := if s.current_search_result = 0 then s.search_results.length - 1
             else s.current_search_result - 1
    let rc := s.search_results.getD i (0, 0)
    { s with
      current_search_result := i,
      selection := .cellRange rc rc,
      editing_cell := none }

/-- Loading a document (`load_csv_from_bytes` after the external CSV
decode): replace the grid wholesale with the decoded rows, normalise,
and clear the dirty flag. -/
def load_rows (rows : List (List Str)) (s : AppState) : AppState :=
  { s with data := normalize_data rows, has_unsaved_changes := false }

/-- The core operations of the event loop, each packaged exactly as the
UI layer invokes it (paste and the delete key snapshot before
mutating; cut and sort snapshot internally). -/
inductive Op where
  | load (rows : List (List Str))
  | pasteEvt (t : Str)
  | addRow
  | addColumn
  | insertRowAt (r : Nat)
  | insertColumnAt (c : Nat)
  | deleteRow (r : Nat)
  | deleteColumn (c : Nat)
  | sortCol (c : Nat) (asc : Bool)
  | clearKey
  | cutEvt
  | undoEvt
  | redoEvt
  | select (sel : Selection)

/-- One event-loop step. -/
def step (s : AppState) : Op → AppState
  | .load rows => load_rows rows s
  | .pasteEvt t => paste_text t (save_undo_state s)
  | .addRow => add_row s
  | .addColumn => add_column s
  | .insertRowAt r => insert_row_at r s
  | .insertColumnAt c => insert_column_at c s
  | .deleteRow r => delete_row r s
  | .deleteColumn c => delete_column c s
  | .sortCol c asc => sort_by_column c asc s
  | .clearKey => clear_selection (save_undo_state s)
  | .cutEvt => cut_selection s
  | .undoEvt => undo s
  | .redoEvt => redo s
  | .select sel => { s with selection := sel }

/-- Run a sequence of operations from the default session state. -/
def run (ops : List Op) : AppState :=
  ops.foldl step initState

/-- Every row has the same length. -/
def Rectangular (data : List (List Str)) : Prop :=
  ∀ r1 ∈ data, ∀ r2 ∈ data, r1.length = r2.length

/-- Every row has length `w`. -/
def RectW (data : List (List Str)) (w : Nat) : Prop :=
  ∀ row ∈ data, row.length = w

/-- Strengthened rectangularity invariant: the grid and every snapshot
on both history stacks are rectangular. -/
def StateRect (s : AppState) : Prop :=
  (∃ w, RectW s.data w) ∧ (∀ d ∈ s.undo_stack, ∃ w, RectW d w) ∧
    (∀ d ∈ s.redo_stack, ∃ w, RectW d w)

/-- No cell of the bound `minR..maxR × minC..maxC` contains a tab,
newline or carriage-return character (absent cells read as empty). -/
def CleanCells (data : List (List Str)) (minR maxR minC maxC : Nat) : Prop :=
  ∀ r ∈ List.range' minR (maxR + 1 - minR), ∀ c ∈ List.range' minC (maxC + 1 - minC),
    tabC ∉ readCell data r c ∧ nlC ∉ readCell data r c ∧ crC ∉ readCell data r c

instance (data : List (List Str)) (minR maxR minC maxC : Nat) :
    Decidable (CleanCells data minR maxR minC maxC) := by
  unfold CleanCells
  infer_instance

/-- Row-major (lexicographic) order on cell coordinates. -/
def rmLt (a b : Nat × Nat) : Prop :=
  a.1 < b.1 ∨ (a.1 = b.1 ∧ a.2 < b.2)

/-- The operations whose event handler snapshots the grid with
`save_undo_state` before mutating it (paste, cut, the delete key's
clear, and sort on a non-empty grid). -/
def OpSnapshots (s : AppState) : Op → Prop
  | .pasteEvt _ => True
  | .cutEvt => True
  | .clearKey => True
  | .sortCol _ _ => s.data ≠ []
  | _ => False

/-- Example state: a 2-by-2 grid with the full range selected. -/
def exampleGridAB : AppState :=
  { initState with
    data := [[strL "a", strL "b"], [strL "c", strL "d"]],
    selection := .cellRange (0, 0) (1, 1) }

/-- Example state: a cell ending in a carriage return, two rows selected. -/
def exampleGridCR : AppState :=
  { initState with
    data := [[strL "x\r"], [strL "y"]],
    selection := .cellRange (0, 0) (1, 0) }

/-- Example state: the empty grid with nothing selected. -/
def exampleEmpty : AppState :=
  { initState with data := [], selection := .noSel }

/-- Example state: a 1-by-1 grid with a 2-by-2 range selected. -/
def exampleSmall : AppState :=
  { initState with data := [[strL "a"]], selection := .cellRange (0, 0) (1, 1) }

/-- Example state: the sort scenario rows with no frozen header. -/
def exampleSort : AppState :=
  { initState with
    data := [[strL "3"], [strL "1"], [strL "2"]],
    freeze_top_row := false }

/-- Example state: a small grid with a pending search query. -/
def exampleSearch : AppState :=
  { initState with
    data := [[strL "Abc", strL "x"], [strL "bC", strL "ab"]],
    search_query := strL "b" }

/-- Example state: an undo stack already holding 50 snapshots. -/
def exampleFull : AppState :=
  { initState with undo_stack := List.replicate 50 [] }

/-! ## Lemmas: splitting and joining -/

theorem splitOnChar_ne_nil (c : Char) (s : Str) : splitOnChar c s ≠ [] := by
  cases s with
  | nil => simp [splitOnChar]
  | cons x xs =>
    simp only [splitOnChar]
    split <;> simp

theorem splitOnChar_cons_self (c : Char) (s : Str) :
    splitOnChar c (c :: s) = [] :: splitOnChar c s := by
  simp [splitOnChar]

theorem splitOnChar_append_of_notMem (c : Char) (p s : Str) (h : c ∉ p) :
    splitOnChar c (p ++ s) =
      (p ++ (splitOnChar c s).headI) :: (splitOnChar c s).tail := by
  induction p with
  | nil =>
    simp only [List.nil_append]
    cases hs : splitOnChar c s with
    | nil => exact absurd hs (splitOnChar_ne_nil c s)
    | cons a t => simp
  | cons x xs ih =>
    have hx : ¬ x = c := fun hxc => h (by simp [hxc])
    have hxs : c ∉ xs := fun hm => h (List.mem_cons_of_mem _ hm)
    simp only [List.cons_append, splitOnChar, if_neg hx, List.append_eq]
    rw [ih hxs]
    simp

theorem splitOnChar_of_notMem (c : Char) (p : Str) (h : c ∉ p) :
    splitOnChar c p = [p] := by
  have h2 := splitOnChar_append_of_notMem c p [] h
  simpa [splitOnChar] using h2

theorem splitOnChar_joinSep (c : Char) (ps : List Str) (hne : ps ≠ [])
    (h : ∀ p ∈ ps, c ∉ p) : splitOnChar c (joinSep c ps) = ps := by
  induction ps with
  | nil => cases hne rfl
  | cons p ps ih =>
    cases ps with
    | nil => exact splitOnChar_of_notMem c p (h p (by simp))
    | cons q qs =>
      have h1 : c ∉ p := h p (by simp)
      have hrest : ∀ x ∈ q :: qs, c ∉ x := fun x hx => h x (List.mem_cons_of_mem _ hx)
      have ihr := ih (by simp) hrest
      show splitOnChar c (p ++ c :: joinSep c (q :: qs)) = p :: q :: qs
      rw [splitOnChar_append_of_notMem c p _ h1, splitOnChar_cons_self, ihr]
      simp

theorem notMem_joinSep (c c' : Char) (ps : List Str) (hcc : c' ≠ c)
    (h : ∀ p ∈ ps, c' ∉ p) : c' ∉ joinSep c ps := by
  induction ps with
  | nil => simp [joinSep]
  | cons p ps ih =>
    cases ps with
    | nil => exact h p (by simp)
    | cons q qs =>
      intro hmem
      rw [show joinSep c (p :: q :: qs) = p ++ c :: joinSep c (q :: qs) from rfl] at hmem
      rcases List.mem_append.mp hmem with h1 | h2
      · exact h p (by simp) h1
      · rcases List.mem_cons.mp h2 with h3 | h4
        · exact hcc h3
        · exact ih (fun x hx => h x (List.mem_cons_of_mem _ hx)) h4

theorem stripTrailCR_of_notMem (l : Str) (h : crC ∉ l) : stripTrailCR l = l := by
  unfold stripTrailCR
  split
  · next heq =>
    have : crC ∈ l := List.mem_of_getLast?_eq_some heq
    exact absurd this h
  · rfl

theorem rustLines_joinSep (ps : List Str) (hne : ps ≠ [])
    (hnl : ∀ p ∈ ps, nlC ∉ p) (hcr : ∀ p ∈ ps, crC ∉ p) :
    rustLines (joinSep nlC ps) =
      if ps.getLast? = some [] then ps.dropLast else ps := by
  have hsplit := splitOnChar_joinSep nlC ps hne hnl
  rcases List.eq_nil_or_concat' ps with rfl | ⟨qs, last, rfl⟩
  · cases hne rfl
  · have hmap : List.map stripTrailCR qs = qs := by
      have hpt : ∀ p ∈ qs, stripTrailCR p = p := fun p hp =>
        stripTrailCR_of_notMem p (hcr p (List.mem_append.mpr (Or.inl hp)))
      calc List.map stripTrailCR qs = qs.map id := List.map_congr_left hpt
        _ = qs := List.map_id _
    simp only [rustLines, hsplit, List.dropLast_concat, List.getLast?_concat, hmap]
    cases last with
    | nil => simp
    | cons a rest => simp

/-! ## Lemmas: cell reads -/

theorem getD_append_replicate_nil (row : List Str) (k x : Nat) :
    (row ++ List.replicate k ([] : Str)).getD x [] = row.getD x [] := by
  simp only [List.getD_eq_getElem?_getD]
  rcases lt_or_le x row.length with h | h
  · rw [List.getElem?_append_left h]
  · rw [List.getElem?_append_right h, List.getElem?_replicate,
      List.getElem?_eq_none h]
    split <;> simp

theorem getD_setCellGrow_read (row : List Str) (c x : Nat) :
    (setCellGrow row c (row.getD c [])).getD x [] = row.getD x [] := by
  unfold setCellGrow
  rcases eq_or_ne x c with rfl | hne
  · have hlen : x < (row ++ List.replicate (x + 1 - row.length) ([] : Str)).length := by
      simp only [List.length_append, List.length_replicate]
      omega
    rw [List.getD_eq_getElem?_getD, List.getElem?_set_self hlen]
    simp
  · rw [List.getD_eq_getElem?_getD, List.getElem?_set_ne (Ne.symm hne),
      ← List.getD_eq_getElem?_getD]
    exact getD_append_replicate_nil row (c + 1 - row.length) x

theorem pasteCells_read (cells : List Str) (row : List Str) (start : Nat)
    (h : ∀ j, j < cells.length → cells.getD j [] = row.getD (start + j) []) :
    ∀ x, (pasteCells row start cells).getD x [] = row.getD x [] := by
  induction cells generalizing row start with
  | nil => intro x; rfl
  | cons v vs ih =>
    intro x
    have hv : v = row.getD start [] := by
      have h0 := h 0 (by simp)
      simpa using h0
    have hrow : ∀ y, (setCellGrow row start v).getD y [] = row.getD y [] := by
      intro y; rw [hv]; exact getD_setCellGrow_read row start y
    have hrest : ∀ j, j < vs.length →
        vs.getD j [] = (setCellGrow row start v).getD (start + 1 + j) [] := by
      intro j hj
      rw [hrow]
      have hs := h (j + 1) (by simpa using Nat.succ_lt_succ hj)
      simpa [Nat.add_assoc, Nat.add_comm 1 j] using hs
    show (pasteCells (setCellGrow row start v) (start + 1) vs).getD x [] = row.getD x []
    rw [ih (setCellGrow row start v) (start + 1) hrest x, hrow]

theorem ensureRows_of_lt (data : List (List Str)) (r m : Nat) (h : r < data.length) :
    ensureRows data r m = data := by
  unfold ensureRows
  have hz : r + 1 - data.length = 0 := by omega
  simp [hz]

theorem pasteLines_read (lines : List Str) (data : List (List Str)) (sr sc m : Nat)
    (hrows : ∀ i, i < lines.length → sr + i < data.length)
    (hcells : ∀ i, i < lines.length → ∀ j,
      j < (splitOnChar tabC (lines.getD i [])).length →
      (splitOnChar tabC (lines.getD i [])).getD j [] = readCell data (sr + i) (sc + j)) :
    (∀ r c, readCell (pasteLines data sr sc m lines) r c = readCell data r c) ∧
      (pasteLines data sr sc m lines).length = data.length := by
  induction lines generalizing data sr with
  | nil => exact ⟨fun _ _ => rfl, rfl⟩
  | cons line rest ih =>
    have hsr : sr < data.length := by
      have h0 := hrows 0 (by simp)
      simpa using h0
    have hens : ensureRows data sr m = data := ensureRows_of_lt data sr m hsr
    have hstep : pasteLines data sr sc m (line :: rest) =
        pasteLines (data.set sr (pasteCells (data.getD sr []) sc (splitOnChar tabC line)))
          (sr + 1) sc m rest := by
      show pasteLines
        ((ensureRows data sr m).set sr
          (pasteCells ((ensureRows data sr m).getD sr []) sc (splitOnChar tabC line)))
        (sr + 1) sc m rest = _
      rw [hens]
    set newRow := pasteCells (data.getD sr []) sc (splitOnChar tabC line) with hnew
    have hnewRead : ∀ y, newRow.getD y [] = (data.getD sr []).getD y [] := by
      intro y
      apply pasteCells_read
      intro j hj
      have hc := hcells 0 (by simp) j (by simpa using hj)
      simpa [readCell] using hc
    have hdata2 : ∀ r c, readCell (data.set sr newRow) r c = readCell data r c := by
      intro r c
      unfold readCell
      rcases eq_or_ne r sr with rfl | hne
      · have hrow : (data.set r newRow).getD r [] = newRow := by
          rw [List.getD_eq_getElem?_getD, List.getElem?_set_self hsr]
          rfl
        rw [hrow, hnewRead c]
      · have hrow : (data.set sr newRow).getD r [] = data.getD r [] := by
          rw [List.getD_eq_getElem?_getD, List.getElem?_set_ne (Ne.symm hne),
            ← List.getD_eq_getElem?_getD]
        rw [hrow]
    have hlen2 : (data.set sr newRow).length = data.length := List.length_set data sr newRow
    have hrows2 : ∀ i, i < rest.length → sr + 1 + i < (data.set sr newRow).length := by
      intro i hi
      rw [hlen2]
      have hr := hrows (i + 1) (by simpa using Nat.succ_lt_succ hi)
      omega
    have hcells2 : ∀ i, i < rest.length → ∀ j,
        j < (splitOnChar tabC (rest.getD i [])).length →
        (splitOnChar tabC (rest.getD i [])).getD j [] =
          readCell (data.set sr newRow) (sr + 1 + i) (sc + j) := by
      intro i hi j hj
      rw [hdata2]
      have hc := hcells (i + 1) (by simpa using Nat.succ_lt_succ hi) j
      simp only [List.getD_cons_succ] at hc
      have := hc hj
      rw [this]
      congr 1
      omega
    obtain ⟨hread3, hlen3⟩ := ih (data.set sr newRow) (sr + 1) hrows2 hcells2
    constructor
    · intro r c
      rw [hstep, hread3 r c, hdata2 r c]
    · rw [hstep, hlen3, hlen2]

theorem readCell_normalize (data : List (List Str)) (r c : Nat) :
    readCell (normalize_data data) r c = readCell data r c := by
  unfold normalize_data readCell
  simp only [List.getD_eq_getElem?_getD, List.getElem?_map]
  cases hr : data[r]? with
  | none => simp
  | some row =>
    simp only [Option.map_some', Option.getD_some]
    have hp := getD_append_replicate_nil row (maxLenD data 0 - row.length) c
    simpa [List.getD_eq_getElem?_getD] using hp

theorem filter_range'_lt (a n L : Nat) :
    (List.range' a n).filter (fun x => x < L) = List.range' a (min n (L - a)) := by
  induction n generalizing a with
  | zero => simp
  | succ n ih =>
    rw [List.range'_succ]
    rcases lt_or_le a L with h | h
    · rw [List.filter_cons_of_pos (by simpa using h), ih (a + 1)]
      have hmin : min (n + 1) (L - a) = (min n (L - (a + 1))) + 1 := by omega
      rw [hmin, List.range'_succ]
    · rw [List.filter_cons_of_neg (by simpa using h), ih (a + 1)]
      have h1 : min n (L - (a + 1)) = 0 := by omega
      have h2 : min (n + 1) (L - a) = 0 := by omega
      simp [h1, h2]

/-! ## Lemmas: selection extraction -/

theorem selCells_length (data : List (List Str)) (ri minC maxC : Nat) :
    (selCells data ri minC maxC).length = maxC + 1 - minC := by
  simp [selCells]

theorem selCells_ne_nil (data : List (List Str)) (ri minC maxC : Nat)
    (h : minC ≤ maxC) : selCells data ri minC maxC ≠ [] := by
  intro hnil
  have := selCells_length data ri minC maxC
  rw [hnil] at this
  simp at this
  omega

theorem selCells_getD (data : List (List Str)) (ri minC maxC j : Nat)
    (hj : j < maxC + 1 - minC) :
    (selCells data ri minC maxC).getD j [] = readCell data ri (minC + j) := by
  unfold selCells
  rw [List.getD_eq_getElem?_getD, List.getElem?_map,
    List.getElem?_range' minC 1 hj]
  simp

theorem selCells_clean (data : List (List Str)) (minR maxR minC maxC ri : Nat)
    (hclean : CleanCells data minR maxR minC maxC)
    (hri : ri ∈ List.range' minR (maxR + 1 - minR)) :
    ∀ p ∈ selCells data ri minC maxC, tabC ∉ p ∧ nlC ∉ p ∧ crC ∉ p := by
  intro p hp
  rcases List.mem_map.mp hp with ⟨ci, hci, rfl⟩
  exact hclean ri hri ci hci

theorem selLines_eq_map (data : List (List Str)) (minR maxR minC maxC : Nat) :
    selLines data minR maxR minC maxC =
      (List.range' minR (min (maxR + 1 - minR) (data.length - minR))).map
        (fun ri => joinSep tabC (selCells data ri minC maxC)) := by
  unfold selLines
  rw [filter_range'_lt]

theorem selLines_length (data : List (List Str)) (minR maxR minC maxC : Nat) :
    (selLines data minR maxR minC maxC).length =
      min (maxR + 1 - minR) (data.length - minR) := by
  rw [selLines_eq_map]
  simp

theorem selLines_getD (data : List (List Str)) (minR maxR minC maxC i : Nat)
    (hi : i < min (maxR + 1 - minR) (data.length - minR)) :
    (selLines data minR maxR minC maxC).getD i [] =
      joinSep tabC (selCells data (minR + i) minC maxC) := by
  rw [selLines_eq_map, List.getD_eq_getElem?_getD, List.getElem?_map,
    List.getElem?_range' minR 1 hi]
  simp

theorem selLines_clean (data : List (List Str)) (minR maxR minC maxC : Nat)
    (hclean : CleanCells data minR maxR minC maxC) :
    ∀ p ∈ selLines data minR maxR minC maxC, nlC ∉ p ∧ crC ∉ p := by
  intro p hp
  rw [selLines_eq_map] at hp
  rcases List.mem_map.mp hp with ⟨ri, hri, rfl⟩
  have hri2 : ri ∈ List.range' minR (maxR + 1 - minR) := by
    rcases List.mem_range'.mp hri with ⟨i, hi, rfl⟩
    exact List.mem_range'.mpr ⟨i, by omega, rfl⟩
  have hcl := selCells_clean data minR maxR minC maxC ri hclean hri2
  constructor
  · exact notMem_joinSep tabC nlC _ (by decide) (fun q hq => (hcl q hq).2.1)
  · exact notMem_joinSep tabC crC _ (by decide) (fun q hq => (hcl q hq).2.2)

/-- Pasting the extracted text of a cell-range selection back with the
anchor at the bound's top-left corner changes no cell read, provided no
bound cell contains a tab, newline or carriage return. -/
theorem paste_extract_reads (s : AppState) (r1 c1 r2 c2 : Nat)
    (hsel : s.selection = .cellRange (r1, c1) (r2, c2))
    (hclean : CleanCells s.data (min r1 r2) (max r1 r2) (min c1 c2) (max c1 c2)) :
    ∀ r c, readCell (paste_text (get_selection_as_text s)
      { s with selection :=
          .cellRange (min r1 r2, min c1 c2) (min r1 r2, min c1 c2) }).data r c
      = readCell s.data r c := by
  intro r c
  set minR := min r1 r2 with hminR
  set maxR := max r1 r2 with hmaxR
  set minC := min c1 c2 with hminC
  set maxC := max c1 c2 with hmaxC
  have htext : get_selection_as_text s = joinSep nlC (selLines s.data minR maxR minC maxC) := by
    rw [get_selection_as_text, hsel]
  set L := selLines s.data minR maxR minC maxC with hLdef
  set K := min (maxR + 1 - minR) (s.data.length - minR) with hKdef
  have hKlen : L.length = K := selLines_length s.data minR maxR minC maxC
  have hpaste : (paste_text (get_selection_as_text s)
      { s with selection := .cellRange (minR, minC) (minR, minC) }).data =
      normalize_data (pasteLines s.data minR minC (maxLenD s.data 10)
        (rustLines (joinSep nlC L))) := by
    rw [htext]
    rfl
  rw [hpaste, readCell_normalize]
  -- determine the pasted lines
  rcases List.eq_nil_or_concat' L with hLnil | ⟨qs, lastL, hLcons⟩
  · rw [hLnil]
    have : rustLines (joinSep nlC []) = [] := by decide
    rw [this]
    rfl
  · have hLne : L ≠ [] := by rw [hLcons]; simp
    have hLclean := selLines_clean s.data minR maxR minC maxC hclean
    have hlines : rustLines (joinSep nlC L) =
        if L.getLast? = some [] then L.dropLast else L :=
      rustLines_joinSep L hLne (fun p hp => (hLclean p hp).1) (fun p hp => (hLclean p hp).2)
    set lines := if L.getLast? = some [] then L.dropLast else L with hlinesdef
    rw [hlines]
    -- lines is a prefix of L
    have hlenle : lines.length ≤ L.length := by
      rw [hlinesdef]
      split
      · simp [List.length_dropLast]
      · exact le_refl _
    have hgetd : ∀ i, i < lines.length → lines.getD i [] = L.getD i [] := by
      intro i hi
      rw [hlinesdef]
      split
      · next hq =>
        rw [hlinesdef] at hi
        rw [if_pos hq] at hi
        have hi2 : i < L.dropLast.length := hi
        have hi3 : i < L.length := lt_of_lt_of_le hi2 (by simp [List.length_dropLast])
        rw [List.getD_eq_getElem?_getD, List.getD_eq_getElem?_getD,
          List.getElem?_eq_getElem hi2, List.getElem?_eq_getElem hi3]
        simp [List.getElem_dropLast]
      · rfl
    -- hypotheses of pasteLines_read
    have hrows : ∀ i, i < lines.length → minR + i < s.data.length := by
      intro i hi
      have h1 : i < K := by
        rw [← hKlen]
        exact lt_of_lt_of_le hi hlenle
      have h2 : i < s.data.length - minR := lt_of_lt_of_le h1 (min_le_right _ _)
      omega
    have hcells : ∀ i, i < lines.length → ∀ j,
        j < (splitOnChar tabC (lines.getD i [])).length →
        (splitOnChar tabC (lines.getD i [])).getD j [] =
          readCell s.data (minR + i) (minC + j) := by
      intro i hi j
      have hiK : i < K := by
        rw [← hKlen]
        exact lt_of_lt_of_le hi hlenle
      rw [hgetd i hi, hLdef, selLines_getD s.data minR maxR minC maxC i (hKdef ▸ hiK)]
      have hriR : minR + i ∈ List.range' minR (maxR + 1 - minR) := by
        apply List.mem_range'.mpr
        refine ⟨i, ?_, by omega⟩
        have := min_le_left (maxR + 1 - minR) (s.data.length - minR)
        omega
      have hcl := selCells_clean s.data minR maxR minC maxC (minR + i) hclean hriR
      have hCmin : minC ≤ maxC := by
        rw [hminC, hmaxC]
        exact le_trans (min_le_left c1 c2) (le_max_left c1 c2)
      rw [splitOnChar_joinSep tabC _ (selCells_ne_nil s.data (minR + i) minC maxC hCmin)
        (fun p hp => (hcl p hp).1)]
      intro hj
      rw [selCells_length] at hj
      exact selCells_getD s.data (minR + i) minC maxC j hj
    exact (pasteLines_read lines s.data minR minC (maxLenD s.data 10) hrows hcells).1 r c

/-! ## Lemmas: rectangularity invariant -/

theorem save_undo_state_data (s : AppState) : (save_undo_state s).data = s.data := rfl

theorem save_undo_state_selection (s : AppState) :
    (save_undo_state s).selection = s.selection := rfl

theorem save_undo_state_clipboard (s : AppState) :
    (save_undo_state s).clipboard = s.clipboard := rfl

theorem save_undo_state_flag (s : AppState) :
    (save_undo_state s).has_unsaved_changes = true := rfl

theorem save_undo_state_undo_stack (s : AppState) :
    (save_undo_state s).undo_stack =
      if 50 < (s.undo_stack ++ [s.data]).length then (s.undo_stack ++ [s.data]).tail
      else s.undo_stack ++ [s.data] := rfl

theorem save_undo_state_redo_stack (s : AppState) :
    (save_undo_state s).redo_stack = [] := rfl

theorem normalize_data_eq (d : List (List Str)) :
    normalize_data d = d.map (fun r => r ++ List.replicate (maxLenD d 0 - r.length) []) := rfl

theorem mem_le_foldr_max (l : List Nat) (x : Nat) (h : x ∈ l) :
    x ≤ l.foldr Nat.max 0 := by
  induction l with
  | nil => cases h
  | cons a as ih =>
    rcases List.mem_cons.mp h with rfl | h2
    · exact Nat.le_max_left _ _
    · exact le_trans (ih h2) (Nat.le_max_right _ _)

theorem length_le_maxLenD (d : List (List Str)) (row : List Str) (h : row ∈ d) :
    row.length ≤ maxLenD d 0 := by
  cases d with
  | nil => cases h
  | cons a as =>
    show row.length ≤ (List.map List.length (a :: as)).foldr Nat.max 0
    exact mem_le_foldr_max _ _ (List.mem_map_of_mem List.length h)

theorem rectW_normalize (d : List (List Str)) :
    RectW (normalize_data d) (maxLenD d 0) := by
  intro row hrow
  rw [normalize_data_eq] at hrow
  rcases List.mem_map.mp hrow with ⟨r0, hr0, rfl⟩
  have hle := length_le_maxLenD d r0 hr0
  simp only [List.length_append, List.length_replicate]
  omega

theorem rectangular_of_rectW (data : List (List Str)) (w : Nat) (h : RectW data w) :
    Rectangular data := fun r1 h1 r2 h2 => by rw [h r1 h1, h r2 h2]

theorem save_snaps (s : AppState)
    (hd : ∃ w, RectW s.data w) (hu : ∀ d ∈ s.undo_stack, ∃ w, RectW d w) :
    ∀ d ∈ (save_undo_state s).undo_stack, ∃ w, RectW d w := by
  intro d hdm
  rw [save_undo_state_undo_stack] at hdm
  have hsub : d ∈ s.undo_stack ++ [s.data] := by
    split at hdm
    · exact (List.tail_sublist _).subset hdm
    · exact hdm
  rcases List.mem_append.mp hsub with h1 | h2
  · exact hu d h1
  · exact (List.mem_singleton.mp h2) ▸ hd

theorem stateRect_save (s : AppState) (h : StateRect s) : StateRect (save_undo_state s) := by
  obtain ⟨hd, hu, _⟩ := h
  refine ⟨hd, save_snaps s hd hu, ?_⟩
  rw [save_undo_state_redo_stack]
  intro d hdm
  cases hdm

theorem clear_selection_undo_stack (s : AppState) :
    (clear_selection s).undo_stack = s.undo_stack := by
  unfold clear_selection
  split <;> rfl

theorem clear_selection_redo_stack (s : AppState) :
    (clear_selection s).redo_stack = s.redo_stack := by
  unfold clear_selection
  split <;> rfl

theorem clear_selection_clipboard (s : AppState) :
    (clear_selection s).clipboard = s.clipboard := by
  unfold clear_selection
  split <;> rfl

theorem rectW_clear_selection (s : AppState) (w : Nat) (h : RectW s.data w) :
    RectW (clear_selection s).data w := by
  rcases hsel : s.selection with _ | ⟨⟨r1, c1⟩, ⟨r2, c2⟩⟩ | c | r
  · have hcs : (clear_selection s).data = s.data := by
      unfold clear_selection
      rw [hsel]
    rw [hcs]
    exact h
  · have hcs : (clear_selection s).data = s.data.mapIdx (fun ri row =>
        if min r1 r2 ≤ ri ∧ ri ≤ max r1 r2 then
          row.mapIdx (fun ci cell => if min c1 c2 ≤ ci ∧ ci ≤ max c1 c2 then [] else cell)
        else row) := by
      unfold clear_selection
      rw [hsel]
    rw [hcs]
    intro row hrow
    rw [List.mem_iff_getElem] at hrow
    obtain ⟨i, hi, heq⟩ := hrow
    rw [List.length_mapIdx] at hi
    rw [List.getElem_mapIdx] at heq
    have hlen : s.data[i].length = w := h _ (List.getElem_mem hi)
    rw [← heq]
    split
    · rw [List.length_mapIdx, hlen]
    · exact hlen
  · have hcs : (clear_selection s).data = s.data.map (fun row => row.set c []) := by
      unfold clear_selection
      rw [hsel]
    rw [hcs]
    intro row hrow
    rcases List.mem_map.mp hrow with ⟨r0, hr0, rfl⟩
    rw [List.length_set]
    exact h r0 hr0
  · have hcs : (clear_selection s).data =
        s.data.set r ((s.data.getD r []).map (fun _ => [])) := by
      unfold clear_selection
      rw [hsel]
    rw [hcs]
    rcases lt_or_le r s.data.length with hlt | hle
    · intro row hrow
      rcases List.mem_or_eq_of_mem_set hrow with h1 | h2
      · exact h row h1
      · rw [h2, List.length_map, List.getD_eq_getElem s.data [] hlt]
        exact h _ (List.getElem_mem hlt)
    · rw [List.set_eq_of_length_le hle]
      exact h

theorem stateRect_clear (s : AppState) (h : StateRect s) : StateRect (clear_selection s) := by
  obtain ⟨⟨w, hw⟩, hu, hr⟩ := h
  refine ⟨⟨w, rectW_clear_selection s w hw⟩, ?_, ?_⟩
  · rw [clear_selection_undo_stack]; exact hu
  · rw [clear_selection_redo_stack]; exact hr

theorem cut_selection_eq (s : AppState) :
    cut_selection s =
      if get_selection_as_text (save_undo_state s) = [] then save_undo_state s
      else clear_selection
        { save_undo_state s with clipboard := get_selection_as_text (save_undo_state s) } := rfl

theorem stateRect_cut (s : AppState) (h : StateRect s) : StateRect (cut_selection s) := by
  rw [cut_selection_eq]
  have hsave := stateRect_save s h
  split
  · exact hsave
  · obtain ⟨⟨w, hw⟩, hu, hr⟩ := hsave
    apply stateRect_clear
    exact ⟨⟨w, hw⟩, hu, hr⟩

theorem stateRect_undo (s : AppState) (h : StateRect s) : StateRect (undo s) := by
  obtain ⟨hd, hu, hr⟩ := h
  unfold undo
  split
  · exact ⟨hd, hu, hr⟩
  · next prev heq =>
    refine ⟨hu prev (List.mem_of_getLast?_eq_some heq), ?_, ?_⟩
    · intro d hdm
      exact hu d ((List.dropLast_sublist _).subset hdm)
    · intro d hdm
      rcases List.mem_append.mp hdm with h1 | h2
      · exact hr d h1
      · exact (List.mem_singleton.mp h2) ▸ hd

theorem stateRect_redo (s : AppState) (h : StateRect s) : StateRect (redo s) := by
  obtain ⟨hd, hu, hr⟩ := h
  unfold redo
  split
  · exact ⟨hd, hu, hr⟩
  · next next heq =>
    refine ⟨hr next (List.mem_of_getLast?_eq_some heq), ?_, ?_⟩
    · intro d hdm
      rcases List.mem_append.mp hdm with h1 | h2
      · exact hu d h1
      · exact (List.mem_singleton.mp h2) ▸ hd
    · intro d hdm
      exact hr d ((List.dropLast_sublist _).subset hdm)

theorem rectW_newRowLen (d : List (List Str)) (w : Nat) (hw : RectW d w) (hne : d ≠ []) :
    ((d.head?.map List.length).getD 10) = w := by
  cases d with
  | nil => cases hne rfl
  | cons a as => simp [hw a (List.mem_cons_self a as)]

theorem stateRect_step (s : AppState) (op : Op) (h : StateRect s) : StateRect (step s op) := by
  obtain ⟨⟨w, hw⟩, hu, hr⟩ := h
  cases op with
  | load rows =>
    exact ⟨⟨maxLenD rows 0, rectW_normalize rows⟩, hu, hr⟩
  | pasteEvt t =>
    have hsave := stateRect_save s ⟨⟨w, hw⟩, hu, hr⟩
    obtain ⟨_, hu2, hr2⟩ := hsave
    set s1 := save_undo_state s
    refine ⟨⟨maxLenD (pasteLines s1.data (pasteAnchor s1.selection).1
      (pasteAnchor s1.selection).2 (maxLenD s1.data 10) (rustLines t)) 0, ?_⟩, hu2, hr2⟩
    exact rectW_normalize _
  | addRow =>
    show StateRect (add_row s)
    unfold add_row
    refine ⟨?_, hu, hr⟩
    show ∃ w', RectW
      (s.data ++ [List.replicate ((s.data.head?.map List.length).getD 10) []]) w'
    rcases eq_or_ne s.data [] with hdata | hdata
    · rw [hdata]
      refine ⟨10, ?_⟩
      intro row hrow
      simp at hrow
      simp [hrow]
    · rw [rectW_newRowLen s.data w hw hdata]
      refine ⟨w, ?_⟩
      intro row hrow
      rcases List.mem_append.mp hrow with h1 | h2
      · exact hw row h1
      · rw [List.mem_singleton.mp h2]
        simp
  | addColumn =>
    show StateRect (add_column s)
    unfold add_column
    split
    · exact ⟨⟨1, by intro row hrow; simp at hrow; simp [hrow]⟩, hu, hr⟩
    · refine ⟨⟨w + 1, ?_⟩, hu, hr⟩
      intro row hrow
      rcases List.mem_map.mp hrow with ⟨r0, hr0, rfl⟩
      simp [hw r0 hr0]
  | insertRowAt r =>
    show StateRect (insert_row_at r s)
    unfold insert_row_at
    refine ⟨?_, hu, hr⟩
    show ∃ w', RectW
      (s.data.insertIdx r (List.replicate ((s.data.head?.map List.length).getD 10) [])) w'
    rcases le_or_lt r s.data.length with hle | hlt
    · rcases eq_or_ne s.data [] with hdata | hdata
      · rw [hdata] at hle ⊢
        simp only [List.length_nil, Nat.le_zero] at hle
        subst hle
        refine ⟨10, ?_⟩
        intro row hrow
        simp [List.insertIdx] at hrow
        simp [hrow]
      · rw [rectW_newRowLen s.data w hw hdata]
        refine ⟨w, ?_⟩
        intro row hrow
        rcases (List.mem_insertIdx hle).mp hrow with h1 | h2
        · rw [h1]
          simp
        · exact hw row h2
    · rw [List.insertIdx_of_length_lt _ _ _ hlt]
      exact ⟨w, hw⟩
  | insertColumnAt c =>
    show StateRect (insert_column_at c s)
    unfold insert_column_at
    split
    · exact ⟨⟨1, by intro row hrow; simp at hrow; simp [hrow]⟩, hu, hr⟩
    · rcases le_or_lt c w with hle | hlt
      · refine ⟨⟨w + 1, ?_⟩, hu, hr⟩
        intro row hrow
        rcases List.mem_map.mp hrow with ⟨r0, hr0, rfl⟩
        have hl0 : r0.length = w := hw r0 hr0
        rw [List.length_insertIdx c r0 (by omega)]
        omega
      · refine ⟨⟨w, ?_⟩, hu, hr⟩
        intro row hrow
        rcases List.mem_map.mp hrow with ⟨r0, hr0, rfl⟩
        have hl0 : r0.length = w := hw r0 hr0
        rw [List.insertIdx_of_length_lt _ _ _ (by omega)]
        exact hl0
  | deleteRow r =>
    show StateRect (delete_row r s)
    unfold delete_row
    split
    · refine ⟨⟨w, ?_⟩, hu, hr⟩
      intro row hrow
      exact hw row ((List.eraseIdx_sublist _ _).subset hrow)
    · exact ⟨⟨w, hw⟩, hu, hr⟩
  | deleteColumn c =>
    show StateRect (delete_column c s)
    unfold delete_column
    rcases lt_or_le c w with hlt | hle
    · refine ⟨⟨w - 1, ?_⟩, hu, hr⟩
      intro row hrow
      rcases List.mem_map.mp hrow with ⟨r0, hr0, rfl⟩
      have hl0 : r0.length = w := hw r0 hr0
      rw [if_pos (by omega), List.length_eraseIdx, if_pos (by omega), hl0]
    · refine ⟨⟨w, ?_⟩, hu, hr⟩
      intro row hrow
      rcases List.mem_map.mp hrow with ⟨r0, hr0, rfl⟩
      have hl0 : r0.length = w := hw r0 hr0
      rw [if_neg (by omega)]
      exact hl0
  | sortCol c asc =>
    show StateRect (sort_by_column c asc s)
    rcases hdata : s.data with _ | ⟨hd, tl⟩
    · have hs : sort_by_column c asc s = s := by
        unfold sort_by_column
        rw [hdata]
      rw [hs]
      exact ⟨⟨w, hw⟩, hu, hr⟩
    · have hsave := stateRect_save s ⟨⟨w, hw⟩, hu, hr⟩
      obtain ⟨_, hu2, hr2⟩ := hsave
      have hs : sort_by_column c asc s =
          { save_undo_state s with
            data := if s.freeze_top_row ∧ tl ≠ [] then
                hd :: List.insertionSort (sortRel c asc) tl
              else List.insertionSort (sortRel c asc) (hd :: tl),
            sorted_column := some c,
            sort_ascending := asc,
            has_unsaved_changes := true } := by
        unfold sort_by_column
        rw [hdata]
      rw [hs]
      refine ⟨⟨w, ?_⟩, hu2, hr2⟩
      have hmemsort : ∀ l : List (List Str), ∀ row ∈ List.insertionSort (sortRel c asc) l,
          row ∈ l := fun l row hrow => (List.perm_insertionSort (sortRel c asc) l).subset hrow
      have hwcons : ∀ row ∈ hd :: tl, row.length = w := by
        intro row hrow
        exact hw row (by rw [hdata]; exact hrow)
      show RectW (if s.freeze_top_row ∧ tl ≠ [] then
          hd :: List.insertionSort (sortRel c asc) tl
        else List.insertionSort (sortRel c asc) (hd :: tl)) w
      split
      · intro row hrow
        rcases List.mem_cons.mp hrow with h1 | h2
        · rw [h1]
          exact hwcons hd (List.mem_cons_self hd tl)
        · exact hwcons row (List.mem_cons_of_mem hd (hmemsort tl row h2))
      · intro row hrow
        exact hwcons row (hmemsort (hd :: tl) row hrow)
  | clearKey =>
    exact stateRect_clear (save_undo_state s) (stateRect_save s ⟨⟨w, hw⟩, hu, hr⟩)
  | cutEvt =>
    exact stateRect_cut s ⟨⟨w, hw⟩, hu, hr⟩
  | undoEvt =>
    exact stateRect_undo s ⟨⟨w, hw⟩, hu, hr⟩
  | redoEvt =>
    exact stateRect_redo s ⟨⟨w, hw⟩, hu, hr⟩
  | select sel =>
    exact ⟨⟨w, hw⟩, hu, hr⟩

theorem stateRect_initState : StateRect initState := by
  refine ⟨⟨10, ?_⟩, ?_, ?_⟩
  · intro row hrow
    have := List.eq_of_mem_replicate hrow
    simp [this]
  · intro d hd
    cases hd
  · intro d hd
    cases hd

theorem stateRect_run (ops : List Op) : StateRect (run ops) := by
  suffices h : ∀ s, StateRect s → StateRect (ops.foldl step s) from
    h initState stateRect_initState
  induction ops with
  | nil => exact fun s hs => hs
  | cons op rest ih => exact fun s hs => ih (step s op) (stateRect_step s op hs)

/-! ## Claim C1 -/

/-- Claim C1: starting from the default 20-by-10 grid, after every sequence
of core operations (load, paste, add/insert/delete row or column, sort,
clear, cut, undo, redo, selection changes) the grid is rectangular: every
row has the same length when the operation returns. -/
theorem c1_grid_always_rectangular (ops : List Op) : Rectangular (run ops).data := by
  obtain ⟨⟨w, hw⟩, -, -⟩ := stateRect_run ops
  exact rectangular_of_rectW _ w hw

/-- Witness for C1 at a concrete operation sequence: after pasting "a" from
the initial state, the first (written) row and the second (untouched) row
have the same length. -/
theorem c1_grid_always_rectangular_witness :
    (strL "a" :: List.replicate 9 ([] : Str)).length =
      (List.replicate 10 ([] : Str)).length :=
  c1_grid_always_rectangular [Op.pasteEvt (strL "a")]
    (strL "a" :: List.replicate 9 ([] : Str)) (by decide)
    (List.replicate 10 ([] : Str)) (by decide)

/-! ## Claim C2 -/

/-- Claim C2, counterexample to the claim as stated: the cells "x\r" and
"y" contain no tab and no newline, yet extracting the two-row selection
and pasting it back at the top-left anchor changes cell (0,0) from "x\r"
to "x" (Rust `str::lines` consumes the carriage return of "x\r\ny"). -/
theorem c2_roundtrip_counterexample :
    (tabC ∉ strL "x\r" ∧ nlC ∉ strL "x\r" ∧ tabC ∉ strL "y" ∧ nlC ∉ strL "y") ∧
    readCell (paste_text (get_selection_as_text exampleGridCR)
      { exampleGridCR with selection := .cellRange (0, 0) (0, 0) }).data 0 0 ≠
      readCell exampleGridCR.data 0 0 := by
  constructor
  · decide
  · decide

/-- Claim C2 (amended: the selected cells must also contain no carriage
return): extracting a cell-range selection and pasting the text back with
the anchor at the bound's top-left corner leaves every cell covered by
the selection with exactly its original content. -/
theorem c2_roundtrip_amended (s : AppState) (r1 c1 r2 c2 : Nat)
    (hsel : s.selection = .cellRange (r1, c1) (r2, c2))
    (hclean : CleanCells s.data (min r1 r2) (max r1 r2) (min c1 c2) (max c1 c2))
    (r c : Nat) (_hr1 : min r1 r2 ≤ r) (_hr2 : r ≤ max r1 r2)
    (_hc1 : min c1 c2 ≤ c) (_hc2 : c ≤ max c1 c2) :
    readCell (paste_text (get_selection_as_text s)
      { s with selection :=
          .cellRange (min r1 r2, min c1 c2) (min r1 r2, min c1 c2) }).data r c
      = readCell s.data r c :=
  paste_extract_reads s r1 c1 r2 c2 hsel hclean r c

/-- Witness for C2 on the concrete 2-by-2 grid a,b / c,d: cell (1,1)
still reads "d" after the extract/paste round trip. -/
theorem c2_roundtrip_witness :
    CleanCells exampleGridAB.data (min 0 1) (max 0 1) (min 0 1) (max 0 1) ∧
    readCell (paste_text (get_selection_as_text exampleGridAB)
      { exampleGridAB with selection := .cellRange (min 0 1, min 0 1) (min 0 1, min 0 1) }).data
      1 1 = readCell exampleGridAB.data 1 1 :=
  ⟨by decide, c2_roundtrip_amended exampleGridAB 0 0 1 1 rfl (by decide) 1 1
    (by decide) (by decide) (by decide) (by decide)⟩

/-! ## Claim C3 -/

/-- Claim C3, counterexample to the claim as stated: pasting "x\ty\nz\tw"
into the empty grid at anchor (0,0) does not produce the 2-by-2 grid
x,y / z,w — `paste_text` sizes rows pushed into an empty grid with
`max().unwrap_or(10)`, i.e. 10 columns. -/
theorem c3_paste_empty_counterexample :
    (paste_text (strL "x\ty\nz\tw") exampleEmpty).data ≠
      [[strL "x", strL "y"], [strL "z", strL "w"]] := by
  decide

/-- Claim C3 (amended): pasting "x\ty\nz\tw" into the empty grid at anchor
(0,0) produces two rows of ten cells each, whose first two cells are
x,y and z,w and whose remaining cells are empty. -/
theorem c3_paste_empty_amended :
    (paste_text (strL "x\ty\nz\tw") exampleEmpty).data =
      [strL "x" :: strL "y" :: List.replicate 8 [],
       strL "z" :: strL "w" :: List.replicate 8 []] := by
  decide

/-! ## Claim C4 -/

/-- Claim C4, counterexample to the claim as stated: on a 1-by-1 grid with
the 2-by-2 bound (0,0)-(1,1) selected, the extracted text has 1 line, not
maxRow - minRow + 1 = 2 lines — the absent row is omitted, not emitted
as empty text. -/
theorem c4_extraction_counterexample :
    (splitOnChar nlC (get_selection_as_text exampleSmall)).length = 1 ∧
    max 0 1 - min 0 1 + 1 = 2 := by
  decide

/-- Claim C4 (amended): the extracted text of a cell-range selection is
the newline-join of one tab-joined line per bound row that exists in the
grid (bound rows at or beyond the row count are omitted, so there are
min(maxRow+1, rowCount) - minRow lines); each line has one field per
bound column, maxCol - minCol + 1 in all, and a column absent from its
row is emitted as empty text rather than omitted. -/
theorem c4_extraction_shape (s : AppState) (r1 c1 r2 c2 : Nat)
    (hsel : s.selection = .cellRange (r1, c1) (r2, c2)) :
    get_selection_as_text s =
      joinSep nlC (selLines s.data (min r1 r2) (max r1 r2) (min c1 c2) (max c1 c2)) ∧
    (selLines s.data (min r1 r2) (max r1 r2) (min c1 c2) (max c1 c2)).length =
      min (max r1 r2 + 1 - min r1 r2) (s.data.length - min r1 r2) ∧
    (∀ i, i < (selLines s.data (min r1 r2) (max r1 r2) (min c1 c2) (max c1 c2)).length →
      (selLines s.data (min r1 r2) (max r1 r2) (min c1 c2) (max c1 c2)).getD i [] =
        joinSep tabC (selCells s.data (min r1 r2 + i) (min c1 c2) (max c1 c2))) ∧
    (∀ ri, (selCells s.data ri (min c1 c2) (max c1 c2)).length =
      max c1 c2 + 1 - min c1 c2) ∧
    (∀ ri j, j < max c1 c2 + 1 - min c1 c2 →
      (selCells s.data ri (min c1 c2) (max c1 c2)).getD j [] =
        readCell s.data ri (min c1 c2 + j)) ∧
    (∀ ri ci, (s.data.getD ri []).length ≤ ci → readCell s.data ri ci = []) := by
  refine ⟨?_, selLines_length _ _ _ _ _, ?_, fun ri => selCells_length _ _ _ _, ?_, ?_⟩
  · rw [get_selection_as_text, hsel]
  · intro i hi
    rw [selLines_length] at hi
    exact selLines_getD _ _ _ _ _ i hi
  · intro ri j hj
    exact selCells_getD _ _ _ _ j hj
  · intro ri ci hci
    unfold readCell
    exact List.getD_eq_default _ _ hci

/-- Witness for C4 on the 1-by-1 grid with 2-by-2 bound: the text equals
the newline-join of the existing-row lines and there is exactly
min(maxRow+1, rowCount) - minRow = 1 of them. -/
theorem c4_extraction_witness :
    get_selection_as_text exampleSmall =
      joinSep nlC (selLines exampleSmall.data (min 0 1) (max 0 1) (min 0 1) (max 0 1)) ∧
    (selLines exampleSmall.data (min 0 1) (max 0 1) (min 0 1) (max 0 1)).length =
      min (max 0 1 + 1 - min 0 1) (exampleSmall.data.length - min 0 1) :=
  ⟨(c4_extraction_shape exampleSmall 0 0 1 1 rfl).1,
   (c4_extraction_shape exampleSmall 0 0 1 1 rfl).2.1⟩

/-! ## Lemmas: history stacks -/

theorem save_undo_getLast (s : AppState) :
    (save_undo_state s).undo_stack.getLast? = some s.data := by
  rw [save_undo_state_undo_stack]
  split
  · next hlen =>
    cases hu : s.undo_stack with
    | nil =>
      rw [hu] at hlen
      simp at hlen
    | cons a as =>
      simp only [List.cons_append, List.tail_cons]
      exact List.getLast?_concat _
  · exact List.getLast?_concat _

theorem undo_eq (s : AppState) (prev : List (List Str))
    (h : s.undo_stack.getLast? = some prev) :
    undo s =
      { s with
        undo_stack := s.undo_stack.dropLast,
        redo_stack := s.redo_stack ++ [s.data],
        data := prev,
        has_unsaved_changes := true,
        sorted_column := none } := by
  unfold undo
  rw [h]

theorem redo_eq (s : AppState) (next : List (List Str))
    (h : s.redo_stack.getLast? = some next) :
    redo s =
      { s with
        redo_stack := s.redo_stack.dropLast,
        undo_stack := s.undo_stack ++ [s.data],
        data := next,
        has_unsaved_changes := true,
        sorted_column := none } := by
  unfold redo
  rw [h]

theorem undo_of_getLast_none (s : AppState) (h : s.undo_stack.getLast? = none) :
    undo s = s := by
  unfold undo
  rw [h]

theorem redo_of_getLast_none (s : AppState) (h : s.redo_stack.getLast? = none) :
    redo s = s := by
  unfold redo
  rw [h]

theorem paste_text_undo_stack (t : Str) (s : AppState) :
    (paste_text t s).undo_stack = s.undo_stack := rfl

theorem paste_text_redo_stack (t : Str) (s : AppState) :
    (paste_text t s).redo_stack = s.redo_stack := rfl

theorem cut_selection_undo_stack (s : AppState) :
    (cut_selection s).undo_stack = (save_undo_state s).undo_stack := by
  rw [cut_selection_eq]
  split
  · rfl
  · rw [clear_selection_undo_stack]

theorem cut_selection_redo_stack (s : AppState) :
    (cut_selection s).redo_stack = [] := by
  rw [cut_selection_eq]
  split
  · rfl
  · rw [clear_selection_redo_stack]
    rfl

theorem sort_by_column_eq_nil (c : Nat) (asc : Bool) (s : AppState)
    (hdata : s.data = []) : sort_by_column c asc s = s := by
  unfold sort_by_column
  rw [hdata]

theorem sort_by_column_eq_cons (c : Nat) (asc : Bool) (s : AppState) (hd : List Str)
    (tl : List (List Str)) (hdata : s.data = hd :: tl) :
    sort_by_column c asc s =
      { save_undo_state s with
        data := if s.freeze_top_row ∧ tl ≠ [] then
            hd :: List.insertionSort (sortRel c asc) tl
          else List.insertionSort (sortRel c asc) (hd :: tl),
        sorted_column := some c,
        sort_ascending := asc,
        has_unsaved_changes := true } := by
  unfold sort_by_column
  rw [hdata]

theorem step_snapshots_getLast (s : AppState) (op : Op) (h : OpSnapshots s op) :
    (step s op).undo_stack.getLast? = some s.data := by
  cases op with
  | pasteEvt t =>
    show (paste_text t (save_undo_state s)).undo_stack.getLast? = some s.data
    rw [paste_text_undo_stack]
    exact save_undo_getLast s
  | cutEvt =>
    show (cut_selection s).undo_stack.getLast? = some s.data
    rw [cut_selection_undo_stack]
    exact save_undo_getLast s
  | clearKey =>
    show (clear_selection (save_undo_state s)).undo_stack.getLast? = some s.data
    rw [clear_selection_undo_stack]
    exact save_undo_getLast s
  | sortCol c asc =>
    have hne : s.data ≠ [] := h
    rcases hdata : s.data with _ | ⟨hd, tl⟩
    · exact absurd hdata hne
    · show (sort_by_column c asc s).undo_stack.getLast? = some (hd :: tl)
      rw [sort_by_column_eq_cons c asc s hd tl hdata, ← hdata]
      exact save_undo_getLast s
  | load rows => exact False.elim h
  | addRow => exact False.elim h
  | addColumn => exact False.elim h
  | insertRowAt r => exact False.elim h
  | insertColumnAt c => exact False.elim h
  | deleteRow r => exact False.elim h
  | deleteColumn c => exact False.elim h
  | undoEvt => exact False.elim h
  | redoEvt => exact False.elim h
  | select sel => exact False.elim h

theorem save_undo_length (s : AppState) (h : s.undo_stack.length ≤ 50) :
    (save_undo_state s).undo_stack.length = min (s.undo_stack.length + 1) 50 := by
  rw [save_undo_state_undo_stack]
  split
  · next hlen =>
    rw [List.length_tail]
    simp only [List.length_append, List.length_singleton] at hlen ⊢
    omega
  · next hlen =>
    simp only [List.length_append, List.length_singleton] at hlen ⊢
    omega

theorem stacks_bound_step (s : AppState) (op : Op)
    (h : s.undo_stack.length + s.redo_stack.length ≤ 50) :
    (step s op).undo_stack.length + (step s op).redo_stack.length ≤ 50 := by
  have hsave : ∀ s' : AppState, s'.undo_stack.length + s'.redo_stack.length ≤ 50 →
      (save_undo_state s').undo_stack.length + (save_undo_state s').redo_stack.length ≤ 50 := by
    intro s' h'
    rw [save_undo_state_redo_stack, save_undo_length s' (by omega)]
    simp only [List.length_nil]
    omega
  cases op with
  | load rows => exact h
  | pasteEvt t =>
    show (paste_text t (save_undo_state s)).undo_stack.length +
      (paste_text t (save_undo_state s)).redo_stack.length ≤ 50
    rw [paste_text_undo_stack, paste_text_redo_stack]
    exact hsave s h
  | addRow => exact h
  | addColumn =>
    show (add_column s).undo_stack.length + (add_column s).redo_stack.length ≤ 50
    unfold add_column
    split <;> exact h
  | insertRowAt r => exact h
  | insertColumnAt c =>
    show (insert_column_at c s).undo_stack.length +
      (insert_column_at c s).redo_stack.length ≤ 50
    unfold insert_column_at
    split <;> exact h
  | deleteRow r =>
    show (delete_row r s).undo_stack.length + (delete_row r s).redo_stack.length ≤ 50
    unfold delete_row
    split <;> exact h
  | deleteColumn c => exact h
  | sortCol c asc =>
    rcases hdata : s.data with _ | ⟨hd, tl⟩
    · show (sort_by_column c asc s).undo_stack.length +
        (sort_by_column c asc s).redo_stack.length ≤ 50
      rw [sort_by_column_eq_nil c asc s hdata]
      exact h
    · show (sort_by_column c asc s).undo_stack.length +
        (sort_by_column c asc s).redo_stack.length ≤ 50
      rw [sort_by_column_eq_cons c asc s hd tl hdata]
      exact hsave s h
  | clearKey =>
    show (clear_selection (save_undo_state s)).undo_stack.length +
      (clear_selection (save_undo_state s)).redo_stack.length ≤ 50
    rw [clear_selection_undo_stack, clear_selection_redo_stack]
    exact hsave s h
  | cutEvt =>
    show (cut_selection s).undo_stack.length + (cut_selection s).redo_stack.length ≤ 50
    rw [cut_selection_undo_stack, cut_selection_redo_stack]
    have := hsave s h
    rw [save_undo_state_redo_stack] at this
    simpa using this
  | undoEvt =>
    show (undo s).undo_stack.length + (undo s).redo_stack.length ≤ 50
    cases hg : s.undo_stack.getLast? with
    | none => rw [undo_of_getLast_none s hg]; exact h
    | some prev =>
      have hne : s.undo_stack ≠ [] := by
        intro hnil
        rw [hnil] at hg
        simp at hg
      have hpos : 0 < s.undo_stack.length := List.length_pos.mpr hne
      rw [undo_eq s prev hg]
      show s.undo_stack.dropLast.length + (s.redo_stack ++ [s.data]).length ≤ 50
      rw [List.length_dropLast, List.length_append, List.length_singleton]
      omega
  | redoEvt =>
    show (redo s).undo_stack.length + (redo s).redo_stack.length ≤ 50
    cases hg : s.redo_stack.getLast? with
    | none => rw [redo_of_getLast_none s hg]; exact h
    | some next =>
      have hne : s.redo_stack ≠ [] := by
        intro hnil
        rw [hnil] at hg
        simp at hg
      have hpos : 0 < s.redo_stack.length := List.length_pos.mpr hne
      rw [redo_eq s next hg]
      show (s.undo_stack ++ [s.data]).length + s.redo_stack.dropLast.length ≤ 50
      rw [List.length_dropLast, List.length_append, List.length_singleton]
      omega
  | select sel => exact h

theorem run_stack_bound (ops : List Op) :
    (run ops).undo_stack.length + (run ops).redo_stack.length ≤ 50 := by
  suffices h : ∀ s : AppState, s.undo_stack.length + s.redo_stack.length ≤ 50 →
      (ops.foldl step s).undo_stack.length + (ops.foldl step s).redo_stack.length ≤ 50 from
    h initState (by decide)
  induction ops with
  | nil => exact fun s hs => hs
  | cons op rest ih => exact fun s hs => ih (step s op) (stacks_bound_step s op hs)

theorem save_iter_length (n : Nat) : ∀ s : AppState, s.undo_stack.length ≤ 50 →
    (save_undo_state^[n] s).undo_stack.length = min (s.undo_stack.length + n) 50 := by
  induction n with
  | zero =>
    intro s h
    simp only [Function.iterate_zero, id_eq]
    omega
  | succ n ih =>
    intro s h
    rw [Function.iterate_succ_apply]
    have h1 : (save_undo_state s).undo_stack.length ≤ 50 := by
      rw [save_undo_length s h]
      omega
    rw [ih (save_undo_state s) h1, save_undo_length s h]
    omega

/-! ## Claim C5 -/

/-- Claim C5: undo immediately after a snapshotting mutating operation
(paste, cut, the delete key's clear, sort on a non-empty grid) restores
the grid exactly as it was before the operation; redo immediately after
undo restores the grid that the undo replaced; save_undo_state (run by
every new mutating operation) empties the redo stack; and undo and redo
are exact no-ops when their stack is empty. -/
theorem c5_undo_redo_symmetry :
    (∀ (s : AppState) (op : Op), OpSnapshots s op → (undo (step s op)).data = s.data) ∧
    (∀ s : AppState, s.undo_stack ≠ [] → (redo (undo s)).data = s.data) ∧
    (∀ s : AppState, (save_undo_state s).redo_stack = []) ∧
    (∀ s : AppState, s.undo_stack = [] → undo s = s) ∧
    (∀ s : AppState, s.redo_stack = [] → redo s = s) := by
  refine ⟨?_, ?_, save_undo_state_redo_stack, ?_, ?_⟩
  · intro s op h
    rw [undo_eq (step s op) s.data (step_snapshots_getLast s op h)]
  · intro s h
    cases hg : s.undo_stack.getLast? with
    | none =>
      rw [List.getLast?_eq_none_iff] at hg
      exact absurd hg h
    | some prev =>
      have hredo : (undo s).redo_stack.getLast? = some s.data := by
        rw [undo_eq s prev hg]
        exact List.getLast?_concat _
      rw [redo_eq (undo s) s.data hredo]
  · intro s h
    apply undo_of_getLast_none
    rw [h]
    rfl
  · intro s h
    apply redo_of_getLast_none
    rw [h]
    rfl

/-- Witness for C5: cutting on the 2-by-2 example grid is undone exactly;
undo then redo after one snapshot returns the initial grid; undo on the
initial state (empty stacks) is a no-op. -/
theorem c5_undo_redo_witness :
    (undo (step exampleGridAB Op.cutEvt)).data = exampleGridAB.data ∧
    (redo (undo (save_undo_state initState))).data = (save_undo_state initState).data ∧
    undo initState = initState :=
  ⟨c5_undo_redo_symmetry.1 exampleGridAB Op.cutEvt trivial,
   c5_undo_redo_symmetry.2.1 (save_undo_state initState) (by decide),
   c5_undo_redo_symmetry.2.2.2.1 initState rfl⟩

/-! ## Claim C6 -/

/-- Claim C6: in every reachable state the undo stack holds at most 50
snapshots; 51 sequential save_undo_state calls from the initial state
leave exactly 50; and when the stack is full the evicted entry is the
oldest one, removed from the bottom (index 0) of the stack, while below
the limit the push is plain. -/
theorem c6_undo_stack_bounded :
    (∀ ops : List Op, (run ops).undo_stack.length ≤ 50) ∧
    (save_undo_state^[51] initState).undo_stack.length = 50 ∧
    (∀ s : AppState, s.undo_stack.length = 50 →
      (save_undo_state s).undo_stack = s.undo_stack.tail ++ [s.data]) ∧
    (∀ s : AppState, s.undo_stack.length < 50 →
      (save_undo_state s).undo_stack = s.undo_stack ++ [s.data]) := by
  refine ⟨?_, ?_, ?_, ?_⟩
  · intro ops
    have := run_stack_bound ops
    omega
  · rw [save_iter_length 51 initState (by decide)]
    decide
  · intro s h
    have hne : s.undo_stack ≠ [] := by
      intro hnil
      rw [hnil] at h
      simp at h
    rw [save_undo_state_undo_stack,
      if_pos (by rw [List.length_append, List.length_singleton]; omega)]
    cases hu : s.undo_stack with
    | nil => exact absurd hu hne
    | cons a as => rfl
  · intro s h
    rw [save_undo_state_undo_stack,
      if_neg (by rw [List.length_append, List.length_singleton]; omega)]

/-- Witness for C6: the empty operation sequence respects the bound, and
pushing onto a full 50-entry stack drops its bottom entry. -/
theorem c6_undo_stack_bounded_witness :
    (run []).undo_stack.length ≤ 50 ∧
    (save_undo_state exampleFull).undo_stack =
      exampleFull.undo_stack.tail ++ [exampleFull.data] :=
  ⟨c6_undo_stack_bounded.1 [],
   c6_undo_stack_bounded.2.2.1 exampleFull (by decide)⟩

/-! ## Lemmas: search -/

theorem filterMap_if {α β : Type} (p : α → Prop) [DecidablePred p] (f : α → β)
    (l : List α) :
    l.filterMap (fun a => if p a then some (f a) else none) =
      (l.filter (fun a => decide (p a))).map f := by
  induction l with
  | nil => rfl
  | cons a as ih =>
    by_cases h : p a
    · rw [List.filterMap_cons, if_pos h, ih,
        List.filter_cons_of_pos (by simp [h]), List.map_cons]
    · rw [List.filterMap_cons, if_neg h, ih,
        List.filter_cons_of_neg (by simp [h])]

theorem pairwise_flatMap_rmLt (f : Nat → List (Nat × Nat)) (n : Nat)
    (hinner : ∀ r, (f r).Pairwise rmLt)
    (hfst : ∀ r, ∀ x ∈ f r, x.1 = r) :
    ((List.range n).flatMap f).Pairwise rmLt := by
  induction n with
  | zero => simp
  | succ n ih =>
    rw [List.range_succ, List.flatMap_append]
    rw [List.pairwise_append]
    refine ⟨ih, by simpa using hinner n, ?_⟩
    intro x hx y hy
    rcases List.mem_flatMap.mp hx with ⟨r, hr, hxr⟩
    have hx1 : x.1 = r := hfst r x hxr
    have hy1 : y.1 = n := hfst n y (by simpa using hy)
    left
    rw [hx1, hy1]
    exact List.mem_range.mp hr

theorem perform_search_empty (s : AppState) (h : s.search_query = []) :
    perform_search s =
      { s with search_results := [], current_search_result := 0 } := by
  unfold perform_search
  rw [if_pos h]

theorem perform_search_nonempty (s : AppState) (h : ¬ s.search_query = []) :
    perform_search s =
      { s with
        current_search_result := 0,
        search_results :=
          (List.range s.data.length).flatMap (fun r =>
            (List.range (s.data.getD r []).length).filterMap (fun c =>
              if foldCase s.search_case_sensitive s.search_query <:+:
                  foldCase s.search_case_sensitive (readCell s.data r c)
              then some (r, c) else none)) } := by
  unfold perform_search
  rw [if_neg h]

/-! ## Claim C8 -/

theorem perform_search_mem (s : AppState) (h : s.search_query ≠ []) (r c : Nat) :
    (r, c) ∈ (perform_search s).search_results ↔
      r < s.data.length ∧ c < (s.data.getD r []).length ∧
        foldCase s.search_case_sensitive s.search_query <:+:
          foldCase s.search_case_sensitive (readCell s.data r c) := by
  rw [perform_search_nonempty s h]
  constructor
  · intro hmem
    show r < s.data.length ∧ _
    rcases List.mem_flatMap.mp hmem with ⟨r0, hr0, hrc⟩
    rcases List.mem_filterMap.mp hrc with ⟨c0, hc0, hg⟩
    by_cases hP : foldCase s.search_case_sensitive s.search_query <:+:
        foldCase s.search_case_sensitive (readCell s.data r0 c0)
    · rw [if_pos hP] at hg
      have hpair : (r0, c0) = (r, c) := Option.some_injective _ hg
      have hr1 : r0 = r := congrArg Prod.fst hpair
      have hc1 : c0 = c := congrArg Prod.snd hpair
      subst hr1
      subst hc1
      exact ⟨List.mem_range.mp hr0, List.mem_range.mp hc0, hP⟩
    · rw [if_neg hP] at hg
      cases hg
  · rintro ⟨h1, h2, h3⟩
    apply List.mem_flatMap.mpr
    refine ⟨r, List.mem_range.mpr h1, ?_⟩
    apply List.mem_filterMap.mpr
    exact ⟨c, List.mem_range.mpr h2, by rw [if_pos h3]⟩

theorem perform_search_pairwise (s : AppState) (h : s.search_query ≠ []) :
    (perform_search s).search_results.Pairwise rmLt := by
  rw [perform_search_nonempty s h]
  apply pairwise_flatMap_rmLt
  · intro r
    rw [filterMap_if (fun c => foldCase s.search_case_sensitive s.search_query <:+:
        foldCase s.search_case_sensitive (readCell s.data r c)) (fun c => (r, c))]
    apply (List.pairwise_map).mpr
    have hlt : (List.range (s.data.getD r []).length).Pairwise (· < ·) :=
      List.pairwise_lt_range _
    exact List.Pairwise.imp (fun hab => Or.inr ⟨rfl, hab⟩)
      (List.Pairwise.sublist (List.filter_sublist _) hlt)
  · intro r x hx
    rcases List.mem_filterMap.mp hx with ⟨c0, _, hg⟩
    by_cases hP : foldCase s.search_case_sensitive s.search_query <:+:
        foldCase s.search_case_sensitive (readCell s.data r c0)
    · rw [if_pos hP] at hg
      have := Option.some_injective _ hg
      rw [← this]
    · rw [if_neg hP] at hg
      cases hg

/-- Claim C9: delete_row with a row index at or beyond the row count is a
complete no-op (in particular the cell contents are unchanged), and
delete_column with a column index at or beyond every row's length leaves
the cell contents unchanged; neither raises an error (both are total). -/
theorem c9_out_of_range_deletes (s : AppState) (r c : Nat) :
    (s.data.length ≤ r → delete_row r s = s) ∧
    (s.data.length ≤ r → (delete_row r s).data = s.data) ∧
    ((∀ row ∈ s.data, row.length ≤ c) → (delete_column c s).data = s.data) := by
  refine ⟨?_, ?_, ?_⟩
  · intro hr
    unfold delete_row
    rw [if_neg (by omega)]
  · intro hr
    unfold delete_row
    rw [if_neg (by omega)]
  · intro hc
    show s.data.map (fun row => if c < row.length then row.eraseIdx c else row) = s.data
    calc s.data.map (fun row => if c < row.length then row.eraseIdx c else row)
        = s.data.map id := by
          apply List.map_congr_left
          intro row hrow
          have := hc row hrow
          rw [if_neg (by omega)]
          rfl
      _ = s.data := List.map_id _

/-- Witness for C9 on the 1-by-1 grid: deleting row 5 and column 7 leave
the grid unchanged. -/
theorem c9_out_of_range_deletes_witness :
    (delete_row 5 exampleSmall).data = exampleSmall.data ∧
    (delete_column 7 exampleSmall).data = exampleSmall.data :=
  ⟨(c9_out_of_range_deletes exampleSmall 5 7).2.1 (by decide),
   (c9_out_of_range_deletes exampleSmall 5 7).2.2 (by decide)⟩

/-! ## Claim C10 -/

/-- Claim C10: when the extracted selection text is empty (in particular
for Selection::None), cut_selection leaves the grid cells and the
clipboard untouched but still pushes a full grid snapshot onto the undo
stack, empties the redo stack, and sets the unsaved-changes flag. -/
theorem c10_empty_cut_frame (s : AppState) (h : get_selection_as_text s = []) :
    (cut_selection s).data = s.data ∧
    (cut_selection s).clipboard = s.clipboard ∧
    (cut_selection s).undo_stack.getLast? = some s.data ∧
    (cut_selection s).redo_stack = [] ∧
    (cut_selection s).has_unsaved_changes = true := by
  have hsel : get_selection_as_text (save_undo_state s) = [] := by
    rw [show get_selection_as_text (save_undo_state s) = get_selection_as_text s from rfl, h]
  have hcut : cut_selection s = save_undo_state s := by
    rw [cut_selection_eq, if_pos hsel]
  rw [hcut]
  exact ⟨save_undo_state_data s, save_undo_state_clipboard s, save_undo_getLast s,
    save_undo_state_redo_stack s, save_undo_state_flag s⟩

/-- Witness for C10 on the initial state, whose selection is None: the
cut changes no cell, yet empties the redo stack and snapshots. -/
theorem c10_empty_cut_frame_witness :
    get_selection_as_text initState = [] ∧
    (cut_selection initState).data = initState.data ∧
    (cut_selection initState).undo_stack.getLast? = some initState.data ∧
    (cut_selection initState).redo_stack = [] :=
  ⟨rfl, (c10_empty_cut_frame initState rfl).1,
   (c10_empty_cut_frame initState rfl).2.2.1,
   (c10_empty_cut_frame initState rfl).2.2.2.1⟩

/-! ## Lemmas: numeric and lexicographic comparison -/

theorem F64.finVal_eq_cast (m e eref : Int) (he : eref ≤ e) :
    F64.finVal m e = ((m * 2 ^ (e - eref).toNat : Int) : ℚ) * (2 : ℚ) ^ eref := by
  set n := (e - eref).toNat with hndef
  have hn : e = eref + (n : Int) := by
    rw [hndef, Int.toNat_of_nonneg (by omega)]
    omega
  unfold F64.finVal
  rw [hn, zpow_add₀ (by norm_num : (2 : ℚ) ≠ 0), zpow_natCast]
  push_cast
  ring

theorem F64.cmpFin_eq_val (m1 e1 m2 e2 : Int) :
    F64.cmpFin m1 e1 m2 e2 = (if F64.finVal m1 e1 = F64.finVal m2 e2 then Ordering.eq
      else if F64.finVal m1 e1 < F64.finVal m2 e2 then Ordering.lt else Ordering.gt) := by
  unfold F64.cmpFin
  set e := min e1 e2 with he
  set x := m1 * (2 : Int) ^ (e1 - e).toNat with hx
  set y := m2 * (2 : Int) ^ (e2 - e).toNat with hy
  have hva : F64.finVal m1 e1 = (x : ℚ) * (2 : ℚ) ^ e :=
    F64.finVal_eq_cast m1 e1 e (min_le_left _ _)
  have hvb : F64.finVal m2 e2 = (y : ℚ) * (2 : ℚ) ^ e :=
    F64.finVal_eq_cast m2 e2 e (min_le_right _ _)
  have hpos : (0 : ℚ) < (2 : ℚ) ^ e := zpow_pos (by norm_num) e
  have heqq : (F64.finVal m1 e1 = F64.finVal m2 e2) ↔ x = y := by
    rw [hva, hvb]
    constructor
    · intro hq
      have hc := mul_right_cancel₀ (ne_of_gt hpos) hq
      exact_mod_cast hc
    · intro hxy
      rw [hxy]
  have hltq : (F64.finVal m1 e1 < F64.finVal m2 e2) ↔ x < y := by
    rw [hva, hvb, mul_lt_mul_right hpos]
    exact ⟨fun hq => by exact_mod_cast hq, fun hq => by exact_mod_cast hq⟩
  by_cases h1 : x = y
  · rw [if_pos h1, if_pos (heqq.mpr h1)]
  · rw [if_neg h1, if_neg (fun hq => h1 (heqq.mp hq))]
    by_cases h2 : x < y
    · rw [if_pos h2, if_pos (hltq.mpr h2)]
    · rw [if_neg h2, if_neg (fun hq => h2 (hltq.mp hq))]

theorem F64.cmpFin_eq_iff (m1 e1 m2 e2 : Int) :
    F64.cmpFin m1 e1 m2 e2 = .eq ↔ F64.finVal m1 e1 = F64.finVal m2 e2 := by
  rw [F64.cmpFin_eq_val]
  constructor
  · intro h
    by_contra hne
    rw [if_neg hne] at h
    split at h <;> cases h
  · intro h
    rw [if_pos h]

theorem pcmp_getD_eq_symm (x y : F64) (h : (F64.pcmp x y).getD .eq = .eq) :
    (F64.pcmp y x).getD .eq = .eq := by
  cases x with
  | nan => cases y <;> rfl
  | inf s1 =>
    cases y with
    | nan => rfl
    | inf s2 => cases s1 <;> cases s2 <;> simp [F64.pcmp] at h ⊢
    | finite m2 e2 => cases s1 <;> simp [F64.pcmp] at h
  | finite m1 e1 =>
    cases y with
    | nan => rfl
    | inf s2 => cases s2 <;> simp [F64.pcmp] at h
    | finite m2 e2 =>
      simp only [F64.pcmp, Option.getD_some] at h ⊢
      rw [F64.cmpFin_eq_iff] at h ⊢
      exact h.symm

theorem pcmp_getD_eq_k_trans (k x y : F64) (hk : k ≠ F64.nan)
    (hx : (F64.pcmp x k).getD .eq = .eq) (hy : (F64.pcmp y k).getD .eq = .eq) :
    (F64.pcmp x y).getD .eq = .eq := by
  cases x with
  | nan => cases y <;> rfl
  | inf s1 =>
    cases y with
    | nan => rfl
    | inf s2 =>
      cases k with
      | nan => exact absurd rfl hk
      | inf sk => cases s1 <;> cases s2 <;> cases sk <;> simp [F64.pcmp] at hx hy ⊢
      | finite mk ek => cases s1 <;> simp [F64.pcmp] at hx
    | finite m2 e2 =>
      cases k with
      | nan => exact absurd rfl hk
      | inf sk => cases sk <;> simp [F64.pcmp] at hy
      | finite mk ek => cases s1 <;> simp [F64.pcmp] at hx
  | finite m1 e1 =>
    cases y with
    | nan => rfl
    | inf s2 =>
      cases k with
      | nan => exact absurd rfl hk
      | inf sk => cases sk <;> simp [F64.pcmp] at hx
      | finite mk ek => cases s2 <;> simp [F64.pcmp] at hy
    | finite m2 e2 =>
      cases k with
      | nan => exact absurd rfl hk
      | inf sk => cases sk <;> simp [F64.pcmp] at hx
      | finite mk ek =>
        simp only [F64.pcmp, Option.getD_some] at hx hy ⊢
        rw [F64.cmpFin_eq_iff] at hx hy ⊢
        exact hx.trans hy.symm

theorem lexCmp_eq_iff (a : Str) : ∀ b : Str, lexCmp a b = .eq ↔ a = b := by
  induction a with
  | nil =>
    intro b
    cases b <;> simp [lexCmp]
  | cons x xs ih =>
    intro b
    cases b with
    | nil => simp [lexCmp]
    | cons y ys =>
      by_cases hxy : x = y
      · subst hxy
        show (if x = x then lexCmp xs ys else _) = .eq ↔ _
        rw [if_pos rfl, ih ys]
        simp
      · show (if x = y then _ else if x < y then Ordering.lt else Ordering.gt) = .eq ↔ _
        rw [if_neg hxy]
        constructor
        · intro h
          split at h <;> cases h
        · intro h
          injection h with h1 h2
          exact absurd h1 hxy

theorem cmpVals_of_parse (a b : Str) (x y : F64)
    (ha : parseNum a = some x) (hb : parseNum b = some y) :
    cmpVals a b = (F64.pcmp x y).getD .eq := by
  unfold cmpVals
  rw [ha, hb]

theorem cmpVals_of_not_both (a b : Str) (h : parseNum a = none ∨ parseNum b = none) :
    cmpVals a b = lexCmp a b := by
  unfold cmpVals
  cases hpa : parseNum a <;> cases hpb : parseNum b
  · rfl
  · rfl
  · rfl
  · rcases h with h | h
    · rw [hpa] at h
      cases h
    · rw [hpb] at h
      cases h

theorem cmpVals_eq_symm (a b : Str) (h : cmpVals a b = .eq) : cmpVals b a = .eq := by
  cases hpa : parseNum a with
  | some x =>
    cases hpb : parseNum b with
    | some y =>
      rw [cmpVals_of_parse a b x y hpa hpb] at h
      rw [cmpVals_of_parse b a y x hpb hpa]
      exact pcmp_getD_eq_symm x y h
    | none =>
      rw [cmpVals_of_not_both a b (Or.inr hpb), lexCmp_eq_iff] at h
      rw [cmpVals_of_not_both b a (Or.inl hpb), lexCmp_eq_iff]
      exact h.symm
  | none =>
    rw [cmpVals_of_not_both a b (Or.inl hpa), lexCmp_eq_iff] at h
    rw [cmpVals_of_not_both b a (Or.inr hpa), lexCmp_eq_iff]
    exact h.symm

theorem cmpVals_eq_k_trans (k a b : Str) (hk : parseNum k ≠ some F64.nan)
    (ha : cmpVals a k = .eq) (hb : cmpVals b k = .eq) : cmpVals a b = .eq := by
  cases hpk : parseNum k with
  | none =>
    cases hpa : parseNum a with
    | some x =>
      rw [cmpVals_of_not_both a k (Or.inr hpk), lexCmp_eq_iff] at ha
      rw [ha, hpk] at hpa
      cases hpa
    | none =>
      rw [cmpVals_of_not_both a k (Or.inl hpa), lexCmp_eq_iff] at ha
      cases hpb : parseNum b with
      | some y =>
        rw [cmpVals_of_not_both b k (Or.inr hpk), lexCmp_eq_iff] at hb
        rw [hb, hpk] at hpb
        cases hpb
      | none =>
        rw [cmpVals_of_not_both b k (Or.inl hpb), lexCmp_eq_iff] at hb
        rw [cmpVals_of_not_both a b (Or.inl hpa), lexCmp_eq_iff, ha, hb]
  | some vk =>
    have hknan : vk ≠ F64.nan := by
      intro hn
      rw [hn] at hpk
      exact hk hpk
    cases hpa : parseNum a with
    | none =>
      rw [cmpVals_of_not_both a k (Or.inl hpa), lexCmp_eq_iff] at ha
      rw [ha, hpk] at hpa
      cases hpa
    | some va =>
      cases hpb : parseNum b with
      | none =>
        rw [cmpVals_of_not_both b k (Or.inl hpb), lexCmp_eq_iff] at hb
        rw [hb, hpk] at hpb
        cases hpb
      | some vb =>
        rw [cmpVals_of_parse a k va vk hpa hpk] at ha
        rw [cmpVals_of_parse b k vb vk hpb hpk] at hb
        rw [cmpVals_of_parse a b va vb hpa hpb]
        exact pcmp_getD_eq_k_trans vk va vb hknan ha hb

/-! ## Lemmas: sort stability -/

theorem rowCmp_gt_not_eqclass (col : Nat) (asc : Bool) (k : Str) (x y : List Str)
    (hk : parseNum k ≠ some F64.nan)
    (hx : cmpVals (x.getD col []) k = .eq) (hgt : rowCmp col asc x y = .gt) :
    ¬ cmpVals (y.getD col []) k = .eq := by
  intro hy
  have hxy : cmpVals (x.getD col []) (y.getD col []) = .eq :=
    cmpVals_eq_k_trans k _ _ hk hx hy
  unfold rowCmp at hgt
  split at hgt
  · rw [hxy] at hgt
    cases hgt
  · rw [hxy] at hgt
    cases hgt

theorem filter_orderedInsert_pos {α : Type} (r : α → α → Prop) [DecidableRel r]
    (p : α → Bool) (x : α) (l : List α)
    (hcompat : ∀ y, ¬ r x y → p y = false) (hp : p x = true) :
    (List.orderedInsert r x l).filter p = x :: l.filter p := by
  induction l with
  | nil =>
    show List.filter p [x] = [x]
    rw [List.filter_cons_of_pos hp]
    rfl
  | cons y ys ih =>
    show (if r x y then x :: y :: ys else y :: List.orderedInsert r x ys).filter p = _
    by_cases hr : r x y
    · rw [if_pos hr, List.filter_cons_of_pos hp]
    · rw [if_neg hr, List.filter_cons_of_neg (by simp [hcompat y hr]), ih,
        List.filter_cons_of_neg (by simp [hcompat y hr])]

theorem filter_orderedInsert_neg {α : Type} (r : α → α → Prop) [DecidableRel r]
    (p : α → Bool) (x : α) (l : List α) (hp : p x = false) :
    (List.orderedInsert r x l).filter p = l.filter p := by
  induction l with
  | nil =>
    show List.filter p [x] = List.filter p []
    rw [List.filter_cons_of_neg (by simp [hp])]
  | cons y ys ih =>
    show (if r x y then x :: y :: ys else y :: List.orderedInsert r x ys).filter p = _
    by_cases hr : r x y
    · rw [if_pos hr, List.filter_cons_of_neg (by simp [hp])]
    · rw [if_neg hr]
      by_cases hpy : p y = true
      · rw [List.filter_cons_of_pos hpy, ih, List.filter_cons_of_pos hpy]
      · rw [List.filter_cons_of_neg hpy, ih, List.filter_cons_of_neg hpy]

theorem filter_insertionSort {α : Type} (r : α → α → Prop) [DecidableRel r]
    (p : α → Bool)
    (hcompat : ∀ x y, p x = true → ¬ r x y → p y = false) (l : List α) :
    (List.insertionSort r l).filter p = l.filter p := by
  induction l with
  | nil => rfl
  | cons a l ih =>
    show (List.orderedInsert r a (List.insertionSort r l)).filter p = (a :: l).filter p
    by_cases hp : p a = true
    · rw [filter_orderedInsert_pos r p a _ (fun y hr => hcompat a y hp hr) hp, ih,
        List.filter_cons_of_pos hp]
    · have hp2 : p a = false := by
        cases hb : p a
        · rfl
        · exact absurd hb hp
      rw [filter_orderedInsert_neg r p a _ hp2, ih,
        List.filter_cons_of_neg (by simp [hp2])]

/-! ## Claim C7 -/

end CsvApp
